import Mathlib

/-!
# create_wiki.go: table-aware writer, link renderer and navigation partitioner

A shallow embedding of `src/create_wiki.go`.

Modelling conventions.

* Go `string` and `[]byte` values are byte sequences: `Bytes = List UInt8`.
  String literals of the source are written `bs "..."`; every literal of the
  source is ASCII, so `bs` yields exactly its bytes.
* Go `int` is a twos-complement machine integer, taken at 64 bits. It is
  modelled by `Int`, and `wrapInt` is applied where the source computes
  `taw.MaxCols - 1` and `taw.CurrentCol++`.  The `depth` counter of
  `processProviderIndex` only grows by one per level of the in-memory tree and
  is compared with `0` only, so it is kept as an unbounded `Int`.
* The underlying `io.Writer` of a `TableAwareWriter` is modelled by the bytes
  it has received so far (`Output`); a write to it appends and succeeds.
* `strings.ToLower` belongs to the Go standard library (it consults the Unicode
  case tables); the functions that call it take it as the parameter `ToLower`.
* A file made by `os.Create` is recorded with its name and the bytes written
  through the handle returned; the records are kept in creation order, and
  `diskContent` reads them as the file system does (a later `os.Create` of the
  same name truncates).
* Whether `os.Create(path)` succeeds at line 199 is given by the parameter
  `create`; when it fails, `check` ends the process (`log.Fatal`). A run of
  `processProviderIndex` ends as an `Outcome`: it returns, panics on the nil
  dereference of line 195, or exits in `check`.
* In `Process`, `os.Mkdir`, `os.Chdir`, the `os.Create` of the main page and
  the fetch and parse of `SetupParse` are taken to succeed.
-/

namespace CreateWiki

/-! ## Bytes and library primitives -/

/-- Go strings and byte slices. -/
abbrev Bytes := List UInt8

/-- The bytes of an ASCII string literal of the source. -/
def bs (s : String) : Bytes := s.data.map (fun c => UInt8.ofNat c.toNat)

/-- Twos-complement wrap of a mathematical integer into the 64-bit `int` range. -/
def wrapInt (x : Int) : Int :=
  (x + 9223372036854775808) % 18446744073709551616 - 9223372036854775808

/-- The values a Go `int` can hold. -/
def IsInt (x : Int) : Prop := -9223372036854775808 ≤ x ∧ x < 9223372036854775808

instance (x : Int) : Decidable (IsInt x) := by unfold IsInt; infer_instance

/-- `strings.HasPrefix(s, pre)`. -/
def HasPrefix (s pre : Bytes) : Bool := pre.isPrefixOf s

/-- `strings.Replace(s, old, new, -1)` for a one-byte `old` and `new`: every
occurrence of the byte is replaced. -/
def Replace (s : Bytes) (old new : UInt8) : Bytes :=
  s.map (fun b => if b = old then new else b)

/-- A lower-casing function that agrees with `strings.ToLower` on ASCII input
(bytes `A`..`Z` are shifted by 32, all other bytes are kept). Used to evaluate
the parametrised definitions on concrete ASCII inputs. -/
def asciiToLower (s : Bytes) : Bytes :=
  s.map (fun b => if 65 ≤ b.toNat ∧ b.toNat ≤ 90 then UInt8.ofNat (b.toNat + 32) else b)

/-! ## TableAwareWriter -/

/-- The struct `TableAwareWriter`; `Output` holds the bytes the underlying
`io.Writer` has received so far. -/
structure TableAwareWriter where
  MaxCols : Int
  CurrentCol : Int
  Output : Bytes
deriving DecidableEq, Repr

/-- The byte slice `writeBytes` that `Write` builds for `p` (lines 30-39): the
cell delimiter, `p`, and the row terminator when the last column is reached. -/
def TableAwareWriter.writeBytes (taw : TableAwareWriter) (p : Bytes) : Bytes :=
  if taw.CurrentCol ≥ wrapInt (taw.MaxCols - 1) then
    (([] ++ bs " | ") ++ p) ++ bs " |\n"
  else
    ([] ++ bs " | ") ++ p

/-- The method `(*TableAwareWriter).Write`: the updated writer and the count
returned by the underlying write of `writeBytes` (its error is `nil`). -/
def TableAwareWriter.Write (taw : TableAwareWriter) (p : Bytes) : TableAwareWriter × Int :=
  if taw.CurrentCol ≥ wrapInt (taw.MaxCols - 1) then
    ({ taw with CurrentCol := 0, Output := taw.Output ++ taw.writeBytes p },
      ((taw.writeBytes p).length : Int))
  else
    ({ taw with CurrentCol := wrapInt (taw.CurrentCol + 1),
                Output := taw.Output ++ taw.writeBytes p },
      ((taw.writeBytes p).length : Int))

/-- The loop of `WriteTableHeader` (lines 53-56) started with `k` iterations
left: each iteration extends `firstRow` and `secondRow`. -/
def headerRows : Nat → Bytes × Bytes → Bytes × Bytes
  | 0, rows => rows
  | k + 1, (firstRow, secondRow) => headerRows k (firstRow ++ bs "| ", secondRow ++ bs "| --- ")

/-- The string `out` built by `WriteTableHeader` (lines 51-60). The loop
`for i := 0; i < taw.MaxCols; i++` runs `taw.MaxCols.toNat` times. -/
def TableAwareWriter.tableHeader (taw : TableAwareWriter) : Bytes :=
  let rows := headerRows taw.MaxCols.toNat ([], [])
  (rows.1 ++ bs "|\n") ++ (rows.2 ++ bs "|\n")

/-- The method `TableAwareWriter.WriteTableHeader` (value receiver). -/
def TableAwareWriter.WriteTableHeader (taw : TableAwareWriter) : TableAwareWriter × Int :=
  ({ taw with Output := taw.Output ++ taw.tableHeader }, (taw.tableHeader.length : Int))

/-- The method `TableAwareWriter.WriteHeader` (value receiver). -/
def TableAwareWriter.WriteHeader (taw : TableAwareWriter) (s : Bytes) : TableAwareWriter × Int :=
  ({ taw with Output := taw.Output ++ s }, (s.length : Int))

/-! ## html.Node -/

/-- The constants of `html.NodeType`. -/
inductive NodeType where
  | ErrorNode
  | TextNode
  | DocumentNode
  | ElementNode
  | CommentNode
  | DoctypeNode
  | RawNode
deriving DecidableEq, Repr

/-- The struct `html.Attribute`. -/
structure Attribute where
  Namespace : Bytes
  Key : Bytes
  Val : Bytes
deriving DecidableEq, Repr

/-- The struct `html.Node`, read-only here: its type, data, attributes and the
chain of children reached by `FirstChild` and then `NextSibling`. -/
inductive Node where
  | mk (Type_ : NodeType) (Data : Bytes) (Attr : List Attribute) (children : List Node)

namespace Node

/-- Field `Type` (a reserved word in Lean, hence the underscore). -/
def Type_ : Node → NodeType
  | mk t _ _ _ => t

/-- Field `Data`: the tag name of an element, the content of a text node. -/
def Data : Node → Bytes
  | mk _ d _ _ => d

/-- Field `Attr`. -/
def Attr : Node → List Attribute
  | mk _ _ a _ => a

/-- The children in sibling order. -/
def children : Node → List Node
  | mk _ _ _ cs => cs

/-- Field `FirstChild` (`none` for `nil`). -/
def FirstChild (n : Node) : Option Node := n.children.head?

end Node

/-! ## writeMDLink -/

/-- Lines 162-166 of `writeMDLink`: the data of the first child, or the empty
string when there is no child. -/
def linkText (n : Node) : Bytes :=
  match n.FirstChild with
  | some c => c.Data
  | none => []

/-- Lines 169-181 of `writeMDLink`, run for the attribute with key `href` whose
value is `val`: a heading and a table frame for `"#"`, one written link
fragment when there is link text, nothing otherwise. -/
def writeHref (text : Bytes) (f : TableAwareWriter) (replaceURL val : Bytes) : TableAwareWriter :=
  let href := if replaceURL ≠ bs "" then replaceURL else val
  if href = bs "#" then
    ((f.WriteHeader (bs "# " ++ text ++ bs "\n\n")).1).WriteTableHeader.1
  else if text ≠ bs "" then
    let href := if HasPrefix href (bs "/docs") then bs "https://www.terraform.io" ++ href else href
    (f.Write (bs "[" ++ text ++ bs "](" ++ href ++ bs ")")).1
  else f

/-- The loop over `n.Attr` in `writeMDLink` (lines 167-184): the first
attribute with key `href` decides what is written, then the loop breaks. -/
def writeMDLinkAttrs (text : Bytes) (f : TableAwareWriter) (replaceURL : Bytes) :
    List Attribute → TableAwareWriter
  | [] => f
  | a :: rest =>
    if a.Key = bs "href" then writeHref text f replaceURL a.Val
    else writeMDLinkAttrs text f replaceURL rest

/-- The function `writeMDLink`. The sink `f` is a `*TableAwareWriter` at every
call site, so the type assertions of lines 174-175 succeed and
`io.WriteString` goes through `Write`. -/
def writeMDLink (n : Node) (f : TableAwareWriter) (replaceURL : Bytes) : TableAwareWriter :=
  if n.Type_ = NodeType.ElementNode ∧ n.Data = bs "a" then
    writeMDLinkAttrs (linkText n) f replaceURL n.Attr
  else f

/-! ## processProviderIndex -/

/-- The function `blacklist`. -/
def blacklist (check : Bytes) : Bool :=
  if check = bs "All Providers" then true
  else if check = bs "AWS Provider" then true
  else false

/-- A file made by `os.Create`: its name and the bytes written through the
handle that `os.Create` returned. -/
structure File where
  name : Bytes
  content : Bytes
deriving DecidableEq, Repr

/-- The node `c.FirstChild.NextSibling` when both `c.FirstChild` and
`c.FirstChild.NextSibling` are non-nil. -/
def secondChild (c : Node) : Option Node :=
  match c.children with
  | _ :: a :: _ => some a
  | _ => none

/-- The condition of line 194: `depth == 0 && c.FirstChild != nil &&
c.FirstChild.NextSibling != nil && c.FirstChild.NextSibling.Data == "a"`. -/
def splitShape (depth : Int) (c : Node) : Bool :=
  match secondChild c with
  | some a => decide (depth = 0) && decide (a.Data = bs "a")
  | none => false

/-- Why a run ends without returning: the nil dereference of line 195, or the
exit of `log.Fatal` in `check` (lines 201, 222-226) after `os.Create(path)`
returned an error. -/
inductive Abort where
  | panic
  | fatal (path : Bytes)
deriving DecidableEq, Repr

/-- How a run of `processProviderIndex` ends. `done f files`: it returned, `f`
is the state of the sink `f` of the caller and `files` are the files created
by `os.Create`, in creation order. `abort why f files`: the process ended
inside the run; `f` and `files` are the sink and the files as they are at
that moment. -/
inductive Outcome where
  | done (f : TableAwareWriter) (files : List File)
  | abort (why : Abort) (f : TableAwareWriter) (files : List File)
deriving DecidableEq, Repr

/-- The sink of the caller when the run ends. -/
def Outcome.sink : Outcome → TableAwareWriter
  | .done f _ => f
  | .abort _ f _ => f

/-- The files created when the run ends. -/
def Outcome.files : Outcome → List File
  | .done _ files => files
  | .abort _ _ files => files

mutual

/-- The function `processProviderIndex`. `create path` tells whether
`os.Create(path)` succeeds (line 199); when it fails, `check` ends the process
(line 201). -/
def processProviderIndex (ToLower : Bytes → Bytes) (create : Bytes → Bool) :
    Node → TableAwareWriter → Int → Bytes → Outcome
  | .mk ty data attr cs, f, depth, name =>
    processChildren ToLower create cs
      (if ty = NodeType.ElementNode ∧ data = bs "a" then writeMDLink (.mk ty data attr cs) f (bs "")
       else f)
      depth name

/-- The loop of lines 193-209 from the child `c` on: `c :: rest` is the
sibling chain that starts at `c`. -/
def processChildren (ToLower : Bytes → Bytes) (create : Bytes → Bool) :
    List Node → TableAwareWriter → Int → Bytes → Outcome
  | [], f, _, _ => .done f []
  | c :: rest, f, depth, name =>
    if splitShape depth c then
      match (secondChild c).bind Node.FirstChild with
      | none => .abort .panic f []
      | some t =>
        if !blacklist t.Data then
          let filename := name ++ bs "_" ++ ToLower (Replace t.Data 32 95)
          let f1 := match secondChild c with
            | some a => writeMDLink a f filename
            | none => f
          if create (filename ++ bs ".md") then
            let tableWriter : TableAwareWriter :=
              ⟨2, 0, bs "[" ++ name ++ bs "](" ++ name ++ bs ")\n"⟩
            match processProviderIndex ToLower create c tableWriter (depth + 1) name with
            | .abort why tw inner =>
              .abort why f1 ((⟨filename ++ bs ".md", tw.Output⟩ : File) :: inner)
            | .done tw inner =>
              match processChildren ToLower create rest f1 depth name with
              | .abort why f2 files =>
                .abort why f2 ((⟨filename ++ bs ".md", tw.Output⟩ : File) :: (inner ++ files))
              | .done f2 files =>
                .done f2 ((⟨filename ++ bs ".md", tw.Output⟩ : File) :: (inner ++ files))
          else .abort (.fatal (filename ++ bs ".md")) f1 []
        else processChildren ToLower create rest f depth name
    else
      match processProviderIndex ToLower create c f (depth + 1) name with
      | .abort why f1 inner => .abort why f1 inner
      | .done f1 inner =>
        match processChildren ToLower create rest f1 depth name with
        | .abort why f2 files => .abort why f2 (inner ++ files)
        | .done f2 files => .done f2 (inner ++ files)

end

/-- An environment in which every `os.Create` succeeds. -/
def createAll (_ : Bytes) : Bool := true

/-- The behaviour of `os.Create` in a working directory without sub-directories
(such as the provider directory that `Process` has just made): a path that
holds a slash or a NUL byte cannot be created. -/
def freshDir (path : Bytes) : Bool := !(path.contains 47) && !(path.contains 0)

/-! ## Sequences of writes -/

/-- A call of one of the three methods of a `TableAwareWriter`. -/
inductive Call where
  | Write (p : Bytes)
  | WriteHeader (s : Bytes)
  | WriteTableHeader

/-- The writer after one call. -/
def Call.run (taw : TableAwareWriter) : Call → TableAwareWriter
  | .Write p => (taw.Write p).1
  | .WriteHeader s => (taw.WriteHeader s).1
  | .WriteTableHeader => taw.WriteTableHeader.1

/-- The writer after a sequence of calls, in order. -/
def runCalls : TableAwareWriter → List Call → TableAwareWriter
  | taw, [] => taw
  | taw, c :: cs => runCalls (c.run taw) cs

/-- The concatenation of `k` copies of `b`. -/
def copies : Nat → Bytes → Bytes
  | 0, _ => []
  | k + 1, b => b ++ copies k b

/-- The value of the first attribute with key `href`, the one the loop of
`writeMDLink` stops at. -/
def firstHref : List Attribute → Option Bytes
  | [] => none
  | a :: rest => if a.Key = bs "href" then some a.Val else firstHref rest

/-- The resolved href in the words of the specification: the override if it is
non-empty, otherwise the first `href` attribute of the node. -/
def specResolvedHref (n : Node) (overrideHref : Bytes) : Option Bytes :=
  if overrideHref ≠ bs "" then some overrideHref else firstHref n.Attr

/-- Sequencing of two parts of a run: the second part starts from the sink
state the first part returned, and the created files are listed in order; an
ended process stays ended. -/
def andThen (r : Outcome) (k : TableAwareWriter → Outcome) : Outcome :=
  match r with
  | .abort why f files => .abort why f files
  | .done f1 files1 =>
    match k f1 with
    | .abort why f2 files2 => .abort why f2 (files1 ++ files2)
    | .done f2 files2 => .done f2 (files1 ++ files2)

/-- One iteration of the loop of lines 193-209, for the child `c`. -/
def childStep (ToLower : Bytes → Bytes) (create : Bytes → Bool) (c : Node)
    (f : TableAwareWriter) (depth : Int) (name : Bytes) : Outcome :=
  if splitShape depth c then
    match (secondChild c).bind Node.FirstChild with
    | none => .abort .panic f []
    | some t =>
      if !blacklist t.Data then
        let filename := name ++ bs "_" ++ ToLower (Replace t.Data 32 95)
        let f1 := match secondChild c with
          | some a => writeMDLink a f filename
          | none => f
        if create (filename ++ bs ".md") then
          match processProviderIndex ToLower create c
              ⟨2, 0, bs "[" ++ name ++ bs "](" ++ name ++ bs ")\n"⟩ (depth + 1) name with
          | .abort why tw inner =>
            .abort why f1 ((⟨filename ++ bs ".md", tw.Output⟩ : File) :: inner)
          | .done tw inner => .done f1 ((⟨filename ++ bs ".md", tw.Output⟩ : File) :: inner)
        else .abort (.fatal (filename ++ bs ".md")) f1 []
      else .done f []
  else processProviderIndex ToLower create c f (depth + 1) name

/-- The method `(*TableAwareWriter).Write` over an arbitrary underlying
`io.Writer`: `under b` is the pair `(n, err)` that `taw.Output.Write(b)`
returns (`err = true` for a non-nil error). The result is the value of
`CurrentCol` when `Write` returns, and the pair that `Write` returns. -/
def TableAwareWriter.WriteVia (under : Bytes → Int × Bool) (taw : TableAwareWriter) (p : Bytes) :
    Int × (Int × Bool) :=
  if taw.CurrentCol ≥ wrapInt (taw.MaxCols - 1) then
    (0, under ((([] ++ bs " | ") ++ p) ++ bs " |\n"))
  else
    (wrapInt (taw.CurrentCol + 1), under (([] ++ bs " | ") ++ p))

/-- An underlying writer that accepts every byte and reports the count. -/
def acceptAll (b : Bytes) : Int × Bool := ((b.length : Int), false)

/-- The node `c.FirstChild.NextSibling.FirstChild` whose data line 195 reads
(`none` when one of the three pointers is nil). -/
def titleNode (c : Node) : Option Node := (secondChild c).bind Node.FirstChild

/-- The value of the variable `filename` of line 196 for the title `title`. -/
def fileName (ToLower : Bytes → Bytes) (name title : Bytes) : Bytes :=
  name ++ bs "_" ++ ToLower (Replace title 32 95)

/-- The back-link line written by line 202. -/
def backLink (name : Bytes) : Bytes := bs "[" ++ name ++ bs "](" ++ name ++ bs ")\n"

/-- The writer `taw` over an underlying sink that had already received `out`. -/
def prepend (out : Bytes) (taw : TableAwareWriter) : TableAwareWriter :=
  { taw with Output := out ++ taw.Output }

/-- The lines of a text: the pieces between the newline bytes. -/
def splitLines : Bytes → List Bytes
  | [] => [[]]
  | b :: rest =>
    if b = 10 then [] :: splitLines rest
    else
      match splitLines rest with
      | [] => [[b]]
      | l :: ls => (b :: l) :: ls

/-- The outcome of a run over an underlying sink that had already received
`out`. -/
def shift (out : Bytes) (r : Outcome) : Outcome :=
  match r with
  | .done f files => .done (prepend out f) files
  | .abort why f files => .abort why (prepend out f) files

/-- The child `c` gets a file at depth 0: it passes the condition of line 194,
the title node of line 195 exists, and the title is not denylisted. -/
def qualifies (c : Node) : Bool :=
  splitShape 0 c &&
    (match titleNode c with
     | some t => !blacklist t.Data
     | none => false)

/-- The child `c` passes the condition of line 194 at depth 0 but the title
node that line 195 dereferences is nil. -/
def malformed (c : Node) : Bool := splitShape 0 c && (titleNode c).isNone

/-- The title `c.FirstChild.NextSibling.FirstChild.Data` of an entry. -/
def entryTitle (c : Node) : Bytes :=
  match titleNode c with
  | some t => t.Data
  | none => []

/-- The file of a qualifying entry `c`: the name of line 199 and, as content,
the back-link followed by the output of the run on `c` at depth 1 through a
fresh two-column writer. -/
def entryFile (ToLower : Bytes → Bytes) (create : Bytes → Bool) (name : Bytes) (c : Node) : File :=
  ⟨fileName ToLower name (entryTitle c) ++ bs ".md",
    backLink name ++ (processProviderIndex ToLower create c ⟨2, 0, []⟩ 1 name).sink.Output⟩

/-- The content found under the name `nm` once the files of the list have been
created and written in order: `os.Create` truncates, so the last one created
under that name is the one that remains. -/
def diskContent : List File → Bytes → Option Bytes
  | [], _ => none
  | x :: rest, nm =>
    match diskContent rest nm with
    | some content => some content
    | none => if x.name = nm then some x.content else none

/-- The number of distinct files that exist after the files of the list have
been created. -/
def distinctFiles (files : List File) : Nat := (files.map File.name).dedup.length

/-! ## Provider: WalkNode and Process -/

/-- The struct `Provider`; `Output` is the state of the `TableAwareWriter`
that the field points to once `Process` has set it. -/
structure Provider where
  Name : Bytes
  Output : TableAwareWriter

/-- The loop over `n.Attr` in `WalkNode` (lines 102-108): whether an attribute
with key `class` and value `nav docs-sidenav` is met (the loop breaks there). -/
def navClass : List Attribute → Bool
  | [] => false
  | a :: rest =>
    if a.Key = bs "class" ∧ a.Val = bs "nav docs-sidenav" then true else navClass rest

/-- The state of a walk: the provider, the files created so far, and two
traces of the execution, the nodes `WalkNode` has been called on and the
arguments `(n, depth, name)` of the calls of `processProviderIndex`. -/
structure Walk where
  p : Provider
  files : List File
  visited : List Node
  calls : List (Node × Int × Bytes)

/-- How a call of `WalkNode` ends: it returns a boolean, or the process ends
inside its call of `processProviderIndex`; `w` is the state at that moment. -/
inductive WalkOutcome where
  | done (keepGoing : Bool) (w : Walk)
  | abort (why : Abort) (w : Walk)

mutual

/-- The method `(*Provider).WalkNode`. -/
def WalkNode (ToLower : Bytes → Bytes) (create : Bytes → Bool) : Node → Walk → WalkOutcome
  | .mk ty data attr cs, w =>
    if ty = NodeType.ElementNode ∧ data = bs "ul" ∧ navClass attr = true then
      match processProviderIndex ToLower create (.mk ty data attr cs) w.p.Output 0
          (ToLower w.p.Name) with
      | .abort why out files =>
        .abort why ⟨{ w.p with Output := out }, w.files ++ files,
          w.visited ++ [.mk ty data attr cs],
          w.calls ++ [(.mk ty data attr cs, 0, ToLower w.p.Name)]⟩
      | .done out files =>
        .done false ⟨{ w.p with Output := out }, w.files ++ files,
          w.visited ++ [.mk ty data attr cs],
          w.calls ++ [(.mk ty data attr cs, 0, ToLower w.p.Name)]⟩
    else walkChildren ToLower create cs { w with visited := w.visited ++ [.mk ty data attr cs] }

/-- The loop of lines 115-119 from the child `c` on. -/
def walkChildren (ToLower : Bytes → Bytes) (create : Bytes → Bool) :
    List Node → Walk → WalkOutcome
  | [], w => .done true w
  | c :: rest, w =>
    match WalkNode ToLower create c w with
    | .abort why w1 => .abort why w1
    | .done false w1 => .done false w1
    | .done true w1 => walkChildren ToLower create rest w1

end

/-- The method `(*Provider).Process` for a provider named `Name`, with
`htmlNode` the tree that `SetupParse` returns; `os.Mkdir`, `os.Chdir`, the
`os.Create` of the main page and `SetupParse` are taken to succeed. The result
lists the files that exist when `Process` returns, the main page first, or is
`none` when the process ends inside the walk. -/
def Process (ToLower : Bytes → Bytes) (create : Bytes → Bool) (Name : Bytes) (htmlNode : Node) :
    Option (List File) :=
  let mainPage : TableAwareWriter := ⟨2, 0, []⟩
  let mainPage := (mainPage.WriteHeader (bs "# " ++ Name ++ bs "\n\n")).1
  let mainPage := (mainPage.WriteHeader (bs "[Home](Home)\n\n")).1
  let mainPage := mainPage.WriteTableHeader.1
  match WalkNode ToLower create htmlNode ⟨⟨Name, mainPage⟩, [], [], []⟩ with
  | .abort _ _ => none
  | .done _ w => some (⟨ToLower Name ++ bs ".md", w.p.Output.Output⟩ :: w.files)

mutual

/-- The nodes of a tree in depth-first pre-order. -/
def preorder : Node → List Node
  | .mk ty data attr cs => .mk ty data attr cs :: preorderList cs

/-- The nodes of a sibling chain and of their subtrees, in pre-order. -/
def preorderList : List Node → List Node
  | [] => []
  | c :: rest => preorder c ++ preorderList rest

end

/-- The node is a navigation container: an element with tag `ul` carrying an
attribute `class = "nav docs-sidenav"`. -/
def isNav (n : Node) : Bool :=
  decide (n.Type_ = NodeType.ElementNode ∧ n.Data = bs "ul") &&
    n.Attr.any (fun a => decide (a.Key = bs "class" ∧ a.Val = bs "nav docs-sidenav"))

/-- A short-circuiting search over the node sequence `nodes`: without a
navigation container the walk visits all of them and returns `true`; otherwise
`processProviderIndex` is called once, on the first container, at depth 0 with
the lower-cased provider name, the nodes up to that container are the only
ones visited, and the walk returns `false` when that call returns. -/
def searchResult (ToLower : Bytes → Bytes) (create : Bytes → Bool) (nodes : List Node)
    (w : Walk) : WalkOutcome :=
  match nodes.find? isNav with
  | none => .done true { w with visited := w.visited ++ nodes }
  | some m =>
    match processProviderIndex ToLower create m w.p.Output 0 (ToLower w.p.Name) with
    | .abort why out files =>
      .abort why ⟨{ w.p with Output := out }, w.files ++ files,
        w.visited ++ (nodes.takeWhile (fun x => !isNav x) ++ [m]),
        w.calls ++ [(m, 0, ToLower w.p.Name)]⟩
    | .done out files =>
      .done false ⟨{ w.p with Output := out }, w.files ++ files,
        w.visited ++ (nodes.takeWhile (fun x => !isNav x) ++ [m]),
        w.calls ++ [(m, 0, ToLower w.p.Name)]⟩

/-! ## Theorems -/

theorem wrapInt_of_isInt {x : Int} (h : IsInt x) : wrapInt x = x := by
  unfold IsInt at h
  unfold wrapInt
  omega

theorem wrapInt_lt (x : Int) : wrapInt x < 9223372036854775808 := by
  unfold wrapInt
  omega

theorem bs_append (s t : String) : bs (s ++ t) = bs s ++ bs t := by
  simp [bs, String.data_append]

/-- C1. For every writer state and every byte sequence `p`: when
`CurrentCol < MaxCols - 1` (the value the source computes), `Write` hands the
underlying sink exactly `" | " ++ p` and sets `CurrentCol` to `CurrentCol + 1`;
when `CurrentCol >= MaxCols - 1` it hands over exactly `" | " ++ p ++ " |\n"`
and sets `CurrentCol` to `0`. The bytes of `p` are passed through unchanged and
`MaxCols` is kept. -/
theorem Write_cell (taw : TableAwareWriter) (p : Bytes) (hcol : IsInt taw.CurrentCol) :
    (taw.CurrentCol < wrapInt (taw.MaxCols - 1) →
      (taw.Write p).1.Output = taw.Output ++ (bs " | " ++ p) ∧
      (taw.Write p).1.CurrentCol = taw.CurrentCol + 1) ∧
    (taw.CurrentCol ≥ wrapInt (taw.MaxCols - 1) →
      (taw.Write p).1.Output = taw.Output ++ (bs " | " ++ p ++ bs " |\n") ∧
      (taw.Write p).1.CurrentCol = 0) ∧
    (taw.Write p).1.MaxCols = taw.MaxCols ∧
    (IsInt taw.MaxCols → taw.MaxCols ≠ -9223372036854775808 →
      wrapInt (taw.MaxCols - 1) = taw.MaxCols - 1) := by
  refine ⟨?_, ?_, ?_, ?_⟩
  · intro h
    have h' : ¬ taw.CurrentCol ≥ wrapInt (taw.MaxCols - 1) := by omega
    have hb := wrapInt_lt (taw.MaxCols - 1)
    have hw : wrapInt (taw.CurrentCol + 1) = taw.CurrentCol + 1 := by
      apply wrapInt_of_isInt
      unfold IsInt at hcol ⊢
      omega
    simp [TableAwareWriter.Write, TableAwareWriter.writeBytes, h', hw]
  · intro h
    simp [TableAwareWriter.Write, TableAwareWriter.writeBytes, h]
  · unfold TableAwareWriter.Write
    split <;> rfl
  · intro hM hne
    apply wrapInt_of_isInt
    unfold IsInt at hM ⊢
    omega

/-- Witness for C1: a two-column writer at column 0 receiving a cell that
contains a pipe and a newline. -/
theorem Write_cell_witness :
    IsInt (⟨2, 0, bs "x"⟩ : TableAwareWriter).CurrentCol ∧
    (((⟨2, 0, bs "x"⟩ : TableAwareWriter).Write (bs "a|b\n")).1.Output
        = bs "x" ++ (bs " | " ++ bs "a|b\n") ∧
      ((⟨2, 0, bs "x"⟩ : TableAwareWriter).Write (bs "a|b\n")).1.CurrentCol = 0 + 1) :=
  ⟨by decide, (Write_cell ⟨2, 0, bs "x"⟩ (bs "a|b\n") (by decide)).1 (by decide)⟩

theorem Call_run_inv (taw : TableAwareWriter) (c : Call)
    (hM : 1 ≤ taw.MaxCols ∧ IsInt taw.MaxCols)
    (h : 0 ≤ taw.CurrentCol ∧ taw.CurrentCol < taw.MaxCols) :
    (c.run taw).MaxCols = taw.MaxCols ∧
    0 ≤ (c.run taw).CurrentCol ∧ (c.run taw).CurrentCol < taw.MaxCols := by
  obtain ⟨hM1, hM2⟩ := hM
  unfold IsInt at hM2
  cases c with
  | Write p =>
    have hw : wrapInt (taw.MaxCols - 1) = taw.MaxCols - 1 :=
      wrapInt_of_isInt (by unfold IsInt; omega)
    have hw2 : wrapInt (taw.CurrentCol + 1) = taw.CurrentCol + 1 :=
      wrapInt_of_isInt (by unfold IsInt; omega)
    simp only [Call.run, TableAwareWriter.Write, hw, hw2]
    split
    · simp only [true_and]; omega
    · simp only [true_and]; omega
  | WriteHeader s => exact ⟨rfl, h⟩
  | WriteTableHeader => exact ⟨rfl, h⟩

theorem runCalls_inv (cs : List Call) : ∀ (taw : TableAwareWriter),
    (1 ≤ taw.MaxCols ∧ IsInt taw.MaxCols) →
    (0 ≤ taw.CurrentCol ∧ taw.CurrentCol < taw.MaxCols) →
    (runCalls taw cs).MaxCols = taw.MaxCols ∧
    0 ≤ (runCalls taw cs).CurrentCol ∧ (runCalls taw cs).CurrentCol < taw.MaxCols := by
  induction cs with
  | nil => intro taw _ h; exact ⟨rfl, h⟩
  | cons c cs ih =>
    intro taw hM h
    obtain ⟨e, h1, h2⟩ := Call_run_inv taw c hM h
    have := ih (c.run taw) (by rw [e]; exact hM) (by rw [e]; exact ⟨h1, h2⟩)
    rw [e] at this
    exact this

/-- C3, as stated, fails: a writer constructed with `MaxCols = 0` and
`CurrentCol = 0` has `CurrentCol = 0 = MaxCols` after one `Write`. -/
theorem CurrentCol_range_counterexample :
    ¬ (0 ≤ (runCalls ⟨0, 0, []⟩ [Call.Write (bs "x")]).CurrentCol ∧
       (runCalls ⟨0, 0, []⟩ [Call.Write (bs "x")]).CurrentCol
         < (runCalls ⟨0, 0, []⟩ [Call.Write (bs "x")]).MaxCols) := by
  decide

/-- C3, amended. For every writer constructed with `MaxCols >= 1` and
`CurrentCol = 0` and every finite sequence of `Write`, `WriteHeader` and
`WriteTableHeader` calls, `0 <= CurrentCol < MaxCols` holds after each call
(after every prefix of the sequence), and `MaxCols` never changes. -/
theorem CurrentCol_range (maxCols : Int) (out : Bytes) (cs : List Call)
    (hM : 1 ≤ maxCols) (hI : IsInt maxCols) (k : Nat) :
    (runCalls ⟨maxCols, 0, out⟩ (cs.take k)).MaxCols = maxCols ∧
    0 ≤ (runCalls ⟨maxCols, 0, out⟩ (cs.take k)).CurrentCol ∧
    (runCalls ⟨maxCols, 0, out⟩ (cs.take k)).CurrentCol < maxCols :=
  runCalls_inv (cs.take k) ⟨maxCols, 0, out⟩ ⟨hM, hI⟩ ⟨le_refl 0, by show (0 : Int) < maxCols; omega⟩

/-- Witness for C3: a two-column writer after a header, a frame and three cells. -/
theorem CurrentCol_range_witness :
    (1 : Int) ≤ 2 ∧ IsInt 2 ∧
    ((runCalls ⟨2, 0, []⟩ ([Call.WriteHeader (bs "# T\n\n"), Call.WriteTableHeader,
        Call.Write (bs "a"), Call.Write (bs "b"), Call.Write (bs "c")].take 5)).MaxCols = 2 ∧
     0 ≤ (runCalls ⟨2, 0, []⟩ ([Call.WriteHeader (bs "# T\n\n"), Call.WriteTableHeader,
        Call.Write (bs "a"), Call.Write (bs "b"), Call.Write (bs "c")].take 5)).CurrentCol ∧
     (runCalls ⟨2, 0, []⟩ ([Call.WriteHeader (bs "# T\n\n"), Call.WriteTableHeader,
        Call.Write (bs "a"), Call.Write (bs "b"), Call.Write (bs "c")].take 5)).CurrentCol < 2) :=
  ⟨by decide, by decide,
    CurrentCol_range 2 [] [Call.WriteHeader (bs "# T\n\n"), Call.WriteTableHeader,
        Call.Write (bs "a"), Call.Write (bs "b"), Call.Write (bs "c")] (by decide) (by decide) 5⟩

theorem headerRows_eq (k : Nat) : ∀ (r1 r2 : Bytes),
    headerRows k (r1, r2) = (r1 ++ copies k (bs "| "), r2 ++ copies k (bs "| --- ")) := by
  induction k with
  | zero => intro r1 r2; simp [headerRows, copies]
  | succ k ih => intro r1 r2; simp [headerRows, copies, ih]

theorem tableHeader_copies (taw : TableAwareWriter) :
    taw.tableHeader = copies taw.MaxCols.toNat (bs "| ") ++ bs "|\n" ++
      (copies taw.MaxCols.toNat (bs "| --- ") ++ bs "|\n") := by
  simp [TableAwareWriter.tableHeader, headerRows_eq]

/-- C4. For every writer, with `c` its column count, `WriteTableHeader` hands
the underlying sink exactly `c` copies of `"| "` followed by `"|\n"`, then `c`
copies of `"| --- "` followed by `"|\n"` (for `c = 2` these are the bytes
`"| | |\n| --- | --- |\n"`); writers with the same `MaxCols` emit the same
bytes whatever their `CurrentCol` and earlier output. -/
theorem WriteTableHeader_frame (taw : TableAwareWriter) :
    taw.WriteTableHeader.1.Output =
      taw.Output ++ (copies taw.MaxCols.toNat (bs "| ") ++ bs "|\n" ++
        (copies taw.MaxCols.toNat (bs "| --- ") ++ bs "|\n")) ∧
    taw.tableHeader = (⟨taw.MaxCols, 0, []⟩ : TableAwareWriter).tableHeader ∧
    (⟨2, taw.CurrentCol, taw.Output⟩ : TableAwareWriter).WriteTableHeader.1.Output
      = taw.Output ++ bs "| | |\n| --- | --- |\n" := by
  refine ⟨?_, rfl, ?_⟩
  · simp only [TableAwareWriter.WriteTableHeader, tableHeader_copies]
  · simp only [TableAwareWriter.WriteTableHeader, TableAwareWriter.tableHeader]
    congr 1

theorem writeMDLinkAttrs_some (text : Bytes) (f : TableAwareWriter) (r : Bytes)
    (attrs : List Attribute) (h : Bytes) (hh : firstHref attrs = some h) :
    writeMDLinkAttrs text f r attrs = writeHref text f r h := by
  induction attrs with
  | nil => simp [firstHref] at hh
  | cons a rest ih =>
    unfold firstHref at hh
    unfold writeMDLinkAttrs
    by_cases hk : a.Key = bs "href"
    · simp only [hk, if_true, Option.some.injEq] at hh ⊢
      rw [hh]
    · simp only [hk, if_false] at hh ⊢
      exact ih hh

theorem writeMDLinkAttrs_none (text : Bytes) (f : TableAwareWriter) (r : Bytes)
    (attrs : List Attribute) (hh : firstHref attrs = none) :
    writeMDLinkAttrs text f r attrs = f := by
  induction attrs with
  | nil => rfl
  | cons a rest ih =>
    unfold firstHref at hh
    unfold writeMDLinkAttrs
    by_cases hk : a.Key = bs "href"
    · simp [hk] at hh
    · simp only [hk, if_false] at hh ⊢
      exact ih hh

theorem writeMDLink_anchor (n : Node) (f : TableAwareWriter) (r : Bytes)
    (ht : n.Type_ = NodeType.ElementNode) (hd : n.Data = bs "a") :
    writeMDLink n f r = writeMDLinkAttrs (linkText n) f r n.Attr := by
  simp [writeMDLink, ht, hd]

/-- C5, as stated, fails: an anchor without any `href` attribute, rendered with
the override `"#"`, has the resolved href `"#"` in the sense of the claim, yet
nothing is written (the loop over the attributes has no iteration). -/
theorem heading_counterexample :
    specResolvedHref (.mk .ElementNode (bs "a") [] [.mk .TextNode (bs "T") [] []]) (bs "#")
      = some (bs "#") ∧
    (writeMDLink (.mk .ElementNode (bs "a") [] [.mk .TextNode (bs "T") [] []]) ⟨2, 0, []⟩
      (bs "#")).Output ≠ bs "# T\n\n" ++ bs "| | |\n| --- | --- |\n" := by
  decide

/-- C5, amended. For every anchor node that carries an `href` attribute and
every writer, when the resolved href (the override if non-empty, otherwise the
first `href` attribute) equals `"#"`, `writeMDLink` hands the underlying sink
exactly `"# " ++ linkText ++ "\n\n"` followed by one table frame for the
column count of the writer, and leaves `CurrentCol` and `MaxCols` unchanged. -/
theorem heading_for_hash (n : Node) (f : TableAwareWriter) (r h : Bytes)
    (ht : n.Type_ = NodeType.ElementNode) (hd : n.Data = bs "a")
    (hh : firstHref n.Attr = some h)
    (hres : specResolvedHref n r = some (bs "#")) :
    writeMDLink n f r =
      ⟨f.MaxCols, f.CurrentCol,
        f.Output ++ (bs "# " ++ linkText n ++ bs "\n\n") ++
          (copies f.MaxCols.toNat (bs "| ") ++ bs "|\n" ++
            (copies f.MaxCols.toNat (bs "| --- ") ++ bs "|\n"))⟩ := by
  rw [writeMDLink_anchor n f r ht hd, writeMDLinkAttrs_some _ _ _ _ h hh]
  have hr : (if r ≠ bs "" then r else h) = bs "#" := by
    unfold specResolvedHref at hres
    rw [hh] at hres
    split at hres
    · rename_i h1; rw [if_pos h1]; exact Option.some.inj hres
    · rename_i h1; rw [if_neg h1]; exact Option.some.inj hres
  unfold writeHref
  dsimp only
  rw [if_pos hr]
  simp only [TableAwareWriter.WriteHeader, TableAwareWriter.WriteTableHeader, tableHeader_copies]

/-- Witness for C5: the anchor `<a href="#">Compute</a>` on a two-column writer
at column 1. -/
theorem heading_for_hash_witness :
    writeMDLink (.mk .ElementNode (bs "a") [⟨[], bs "href", bs "#"⟩]
        [.mk .TextNode (bs "Compute") [] []]) ⟨2, 1, bs "x"⟩ (bs "") =
      ⟨2, 1, bs "x" ++ (bs "# " ++ linkText (.mk .ElementNode (bs "a") [⟨[], bs "href", bs "#"⟩]
        [.mk .TextNode (bs "Compute") [] []]) ++ bs "\n\n") ++
          (copies (2 : Int).toNat (bs "| ") ++ bs "|\n" ++
            (copies (2 : Int).toNat (bs "| --- ") ++ bs "|\n"))⟩ :=
  heading_for_hash (.mk .ElementNode (bs "a") [⟨[], bs "href", bs "#"⟩]
    [.mk .TextNode (bs "Compute") [] []]) ⟨2, 1, bs "x"⟩ (bs "") (bs "#") (by decide) (by decide)
    (by decide) (by decide)

/-- C6, as stated, fails: for an anchor without any `href` attribute the
override is not used (nothing is written), while the anchor with the same
first child and the single attribute `href = "x"` is rendered as a link. -/
theorem override_counterexample :
    writeMDLink (.mk .ElementNode (bs "a") [] [.mk .TextNode (bs "T") [] []]) ⟨2, 0, []⟩ (bs "x")
      ≠ writeMDLink (.mk .ElementNode (bs "a") [⟨[], bs "href", bs "x"⟩]
          [.mk .TextNode (bs "T") [] []]) ⟨2, 0, []⟩ (bs "") := by
  decide

/-- C6, amended. For every anchor node that carries at least one `href`
attribute (whatever its value and the other attributes) and every non-empty
override `r`, `writeMDLink n f r` equals the rendering, with no override, of
any anchor `m` with the same first child and the single attribute `href = r`. -/
theorem override_replaces_href (n m : Node) (f : TableAwareWriter) (r h : Bytes) (a : Attribute)
    (ht : n.Type_ = NodeType.ElementNode) (hd : n.Data = bs "a")
    (hh : firstHref n.Attr = some h) (hr : r ≠ bs "")
    (hmt : m.Type_ = NodeType.ElementNode) (hmd : m.Data = bs "a")
    (hmc : m.FirstChild = n.FirstChild)
    (hma : m.Attr = [a]) (hak : a.Key = bs "href") (hav : a.Val = r) :
    writeMDLink n f r = writeMDLink m f (bs "") := by
  have hm : firstHref m.Attr = some r := by simp [hma, firstHref, hak, hav]
  have hl : linkText m = linkText n := by simp [linkText, hmc]
  rw [writeMDLink_anchor n f r ht hd, writeMDLinkAttrs_some _ _ _ _ h hh,
    writeMDLink_anchor m f _ hmt hmd, writeMDLinkAttrs_some _ _ _ _ r hm, hl]
  simp [writeHref, hr]

/-- Witness for C6: an anchor with a live `/docs` href rendered with the
override `aws_ec2`. -/
theorem override_replaces_href_witness :
    writeMDLink (.mk .ElementNode (bs "a") [⟨[], bs "class", bs "c"⟩, ⟨[], bs "href", bs "/docs/x"⟩]
        [.mk .TextNode (bs "EC2") [] []]) ⟨2, 0, []⟩ (bs "aws_ec2")
      = writeMDLink (.mk .ElementNode (bs "a") [⟨[], bs "href", bs "aws_ec2"⟩]
        [.mk .TextNode (bs "EC2") [] []]) ⟨2, 0, []⟩ (bs "") :=
  override_replaces_href _ _ ⟨2, 0, []⟩ (bs "aws_ec2") (bs "/docs/x") ⟨[], bs "href", bs "aws_ec2"⟩
    (by decide) (by decide) (by decide) (by decide) (by decide) (by decide) rfl
    rfl (by decide) (by decide)

/-- C7. For every anchor node with non-empty link text `t` whose first `href`
attribute has a value `h` other than `"#"`, rendered with no override:
`writeMDLink` performs exactly one `Write` on the writer, with the fragment
`"[" ++ t ++ "](" ++ h' ++ ")"`, where `h'` is `h` prefixed by
`"https://www.terraform.io"` if `h` starts with `"/docs"` and `h` otherwise;
the underlying sink receives that fragment as one table cell. -/
theorem link_fragment (n : Node) (f : TableAwareWriter) (t h : Bytes)
    (ht : n.Type_ = NodeType.ElementNode) (hd : n.Data = bs "a")
    (htext : linkText n = t) (hne : t ≠ bs "")
    (hh : firstHref n.Attr = some h) (hhash : h ≠ bs "#") :
    writeMDLink n f (bs "") =
      (f.Write (bs "[" ++ t ++ bs "](" ++
        (if HasPrefix h (bs "/docs") then bs "https://www.terraform.io" ++ h else h) ++ bs ")")).1 ∧
    (writeMDLink n f (bs "")).Output =
      f.Output ++ (bs " | " ++ (bs "[" ++ t ++ bs "](" ++
        (if HasPrefix h (bs "/docs") then bs "https://www.terraform.io" ++ h else h) ++ bs ")") ++
        (if f.CurrentCol ≥ wrapInt (f.MaxCols - 1) then bs " |\n" else [])) := by
  have h1 : writeMDLink n f (bs "") =
      (f.Write (bs "[" ++ t ++ bs "](" ++
        (if HasPrefix h (bs "/docs") then bs "https://www.terraform.io" ++ h else h) ++ bs ")")).1 := by
    rw [writeMDLink_anchor n f _ ht hd, writeMDLinkAttrs_some _ _ _ _ h hh, htext]
    unfold writeHref
    dsimp only
    have e : (if bs "" ≠ bs "" then bs "" else h) = h := if_neg (by simp)
    rw [e, if_neg hhash, if_pos hne]
  refine ⟨h1, ?_⟩
  rw [h1]
  unfold TableAwareWriter.Write TableAwareWriter.writeBytes
  split <;> simp

/-- Witness for C7: `<a href="/docs/providers/aws/r/instance.html">aws_instance</a>`
on a fresh two-column writer. -/
theorem link_fragment_witness :
    writeMDLink (.mk .ElementNode (bs "a") [⟨[], bs "href", bs "/docs/providers/aws/r/instance.html"⟩]
        [.mk .TextNode (bs "aws_instance") [] []]) ⟨2, 0, []⟩ (bs "") =
      ((⟨2, 0, []⟩ : TableAwareWriter).Write (bs "[" ++ bs "aws_instance" ++ bs "](" ++
        (if HasPrefix (bs "/docs/providers/aws/r/instance.html") (bs "/docs")
          then bs "https://www.terraform.io" ++ bs "/docs/providers/aws/r/instance.html"
          else bs "/docs/providers/aws/r/instance.html") ++ bs ")")).1 :=
  (link_fragment (.mk .ElementNode (bs "a") [⟨[], bs "href", bs "/docs/providers/aws/r/instance.html"⟩]
        [.mk .TextNode (bs "aws_instance") [] []]) ⟨2, 0, []⟩ (bs "aws_instance")
        (bs "/docs/providers/aws/r/instance.html")
        (by decide) (by decide) (by decide) (by decide) (by decide) (by decide)).1

/-- C8. `writeMDLink` is a no-op (the writer, and so the bytes of the
underlying sink, are unchanged) for every node that is not an element with
tag `a`, and for every anchor whose link text is empty while its resolved href
is not `"#"`. -/
theorem writeMDLink_noop (n : Node) (f : TableAwareWriter) (r : Bytes) :
    (¬ (n.Type_ = NodeType.ElementNode ∧ n.Data = bs "a") → writeMDLink n f r = f) ∧
    (n.Type_ = NodeType.ElementNode → n.Data = bs "a" → linkText n = bs "" →
      specResolvedHref n r ≠ some (bs "#") → writeMDLink n f r = f) := by
  constructor
  · intro h
    simp [writeMDLink, h]
  · intro ht hd htext hres
    rw [writeMDLink_anchor n f r ht hd]
    cases hh : firstHref n.Attr with
    | none => exact writeMDLinkAttrs_none _ _ _ _ hh
    | some h =>
      rw [writeMDLinkAttrs_some _ _ _ _ h hh, htext]
      have hr : ¬ (if r ≠ bs "" then r else h) = bs "#" := by
        intro hc
        apply hres
        unfold specResolvedHref
        rw [hh]
        split
        · rename_i h1; rw [if_pos h1] at hc; rw [hc]
        · rename_i h1; rw [if_neg h1] at hc; rw [hc]
      unfold writeHref
      dsimp only
      rw [if_neg hr, if_neg (by simp)]

/-- Witness for C8: a text node, and the anchor `<a href="/docs/x"></a>`
without link text, leave the writer as it was. -/
theorem writeMDLink_noop_witness :
    writeMDLink (.mk .TextNode (bs "a") [] []) ⟨2, 1, bs "x"⟩ (bs "") = ⟨2, 1, bs "x"⟩ ∧
    writeMDLink (.mk .ElementNode (bs "a") [⟨[], bs "href", bs "/docs/x"⟩] []) ⟨2, 1, bs "x"⟩ (bs "")
      = ⟨2, 1, bs "x"⟩ :=
  ⟨(writeMDLink_noop (.mk .TextNode (bs "a") [] []) ⟨2, 1, bs "x"⟩ (bs "")).1 (by decide),
   (writeMDLink_noop (.mk .ElementNode (bs "a") [⟨[], bs "href", bs "/docs/x"⟩] []) ⟨2, 1, bs "x"⟩
      (bs "")).2 (by decide) (by decide) (by decide) (by decide)⟩

theorem splitShape_deep (depth : Int) (c : Node) (h : depth ≠ 0) : splitShape depth c = false := by
  unfold splitShape
  split <;> simp [h]

theorem processChildren_nil (ToLower : Bytes → Bytes) (create : Bytes → Bool)
    (f : TableAwareWriter) (depth : Int) (name : Bytes) :
    processChildren ToLower create [] f depth name = .done f [] := by
  rw [processChildren]

theorem andThen_pure (f : TableAwareWriter) (k : TableAwareWriter → Outcome) :
    andThen (.done f []) k = k f := by
  unfold andThen
  cases h : k f with
  | done f2 files2 => simp [h]
  | abort why f2 files2 => simp [h]

theorem andThen_assoc (r : Outcome) (k1 k2 : TableAwareWriter → Outcome) :
    andThen (andThen r k1) k2 = andThen r (fun f1 => andThen (k1 f1) k2) := by
  cases r with
  | abort why f files => rfl
  | done f1 files1 =>
    cases h1 : k1 f1 with
    | abort why f2 files2 => simp [andThen, h1]
    | done f2 files2 =>
      cases h2 : k2 f2 with
      | abort why f3 files3 => simp [andThen, h1, h2, List.append_assoc]
      | done f3 files3 => simp [andThen, h1, h2, List.append_assoc]

/-- The loop unrolled once: the iteration for `c`, then the loop over `rest`. -/
theorem processChildren_cons (ToLower : Bytes → Bytes) (create : Bytes → Bool) (c : Node)
    (rest : List Node) (f : TableAwareWriter) (depth : Int) (name : Bytes) :
    processChildren ToLower create (c :: rest) f depth name =
      andThen (childStep ToLower create c f depth name)
        (fun f1 => processChildren ToLower create rest f1 depth name) := by
  rw [processChildren]
  unfold childStep
  by_cases hs : splitShape depth c = true
  · rw [if_pos hs, if_pos hs]
    cases ht : (secondChild c).bind Node.FirstChild with
    | none => rfl
    | some t =>
      dsimp only
      by_cases hb : (!blacklist t.Data) = true
      · rw [if_pos hb, if_pos hb]
        by_cases hc : create (name ++ bs "_" ++ ToLower (Replace t.Data 32 95) ++ bs ".md") = true
        · rw [if_pos hc, if_pos hc]
          cases hp : processProviderIndex ToLower create c
              ⟨2, 0, bs "[" ++ name ++ bs "](" ++ name ++ bs ")\n"⟩ (depth + 1) name with
          | abort why tw inner => rfl
          | done tw inner =>
            dsimp only [andThen]
            cases processChildren ToLower create rest
                (match secondChild c with
                 | some a => writeMDLink a f (name ++ bs "_" ++ ToLower (Replace t.Data 32 95))
                 | none => f) depth name with
            | abort why f2 files => simp
            | done f2 files => simp
        · rw [if_neg hc, if_neg hc]
          rfl
      · rw [if_neg hb, if_neg hb, andThen_pure]
  · rw [if_neg hs, if_neg hs]
    cases hp : processProviderIndex ToLower create c f (depth + 1) name with
    | abort why f1 inner => rfl
    | done f1 inner => rfl

theorem processChildren_nosplit (ToLower : Bytes → Bytes) (create : Bytes → Bool) (c : Node)
    (rest : List Node) (f : TableAwareWriter) (depth : Int) (name : Bytes)
    (h : splitShape depth c = false) :
    processChildren ToLower create (c :: rest) f depth name =
      andThen (processProviderIndex ToLower create c f (depth + 1) name)
        (fun f1 => processChildren ToLower create rest f1 depth name) := by
  rw [processChildren_cons]
  unfold childStep
  rw [if_neg (by simp [h])]

mutual

theorem processProviderIndex_deep (ToLower : Bytes → Bytes) (create : Bytes → Bool) :
    ∀ (n : Node) (f : TableAwareWriter) (depth : Int) (name : Bytes), 1 ≤ depth →
      ∃ f1, processProviderIndex ToLower create n f depth name = .done f1 []
  | .mk ty data attr cs, f, depth, name, h => by
    rw [processProviderIndex]
    exact processChildren_deep ToLower create cs _ depth name h

theorem processChildren_deep (ToLower : Bytes → Bytes) (create : Bytes → Bool) :
    ∀ (cs : List Node) (f : TableAwareWriter) (depth : Int) (name : Bytes), 1 ≤ depth →
      ∃ f1, processChildren ToLower create cs f depth name = .done f1 []
  | [], f, depth, name, _ => ⟨f, processChildren_nil ToLower create f depth name⟩
  | c :: rest, f, depth, name, h => by
    obtain ⟨f1, h1⟩ := processProviderIndex_deep ToLower create c f (depth + 1) name (by omega)
    obtain ⟨f2, h2⟩ := processChildren_deep ToLower create rest f1 depth name h
    refine ⟨f2, ?_⟩
    rw [processChildren_nosplit ToLower create c rest f depth name
      (splitShape_deep depth c (by omega)), h1, andThen_pure, h2]

end

theorem processChildren_append (ToLower : Bytes → Bytes) (create : Bytes → Bool)
    (xs ys : List Node) (depth : Int) (name : Bytes) : ∀ (f : TableAwareWriter),
    processChildren ToLower create (xs ++ ys) f depth name =
      andThen (processChildren ToLower create xs f depth name)
        (fun f1 => processChildren ToLower create ys f1 depth name) := by
  induction xs with
  | nil =>
    intro f
    rw [List.nil_append, processChildren_nil, andThen_pure]
  | cons c xs ih =>
    intro f
    rw [List.cons_append, processChildren_cons, processChildren_cons, andThen_assoc]
    congr 1
    funext f1
    exact ih f1

theorem childStep_denylisted (ToLower : Bytes → Bytes) (create : Bytes → Bool) (c a t : Node)
    (f : TableAwareWriter) (name : Bytes) (ha : secondChild c = some a) (had : a.Data = bs "a")
    (ht : a.FirstChild = some t)
    (hden : t.Data = bs "All Providers" ∨ t.Data = bs "AWS Provider") :
    childStep ToLower create c f 0 name = .done f [] := by
  have hs : splitShape 0 c = true := by simp [splitShape, ha, had]
  have hb : blacklist t.Data = true := by
    unfold blacklist
    rcases hden with h | h <;> simp [h]
  unfold childStep
  simp [hs, ha, ht, hb]

theorem linkText_append (ty : NodeType) (data : Bytes) (attr : List Attribute)
    (pre xs ys : List Node) (hpre : pre ≠ []) :
    linkText (.mk ty data attr (pre ++ xs)) = linkText (.mk ty data attr (pre ++ ys)) := by
  cases pre with
  | nil => exact absurd rfl hpre
  | cons p pre => rfl

/-- C9, as stated, fails: when the node itself is an anchor and the
denylisted entry is its first child, removing the entry changes the link text
of the node, and with it the bytes written to the sink. -/
theorem denylisted_counterexample :
    processProviderIndex asciiToLower createAll
      (.mk .ElementNode (bs "a") [⟨[], bs "href", bs "/x"⟩]
        [.mk .ElementNode (bs "li") [] [.mk .ElementNode (bs "span") [] [],
          .mk .ElementNode (bs "a") [] [.mk .TextNode (bs "All Providers") [] []]]])
      ⟨2, 0, []⟩ 0 (bs "aws") = .done ⟨2, 1, bs " | [li](/x)"⟩ [] ∧
    processProviderIndex asciiToLower createAll
      (.mk .ElementNode (bs "a") [⟨[], bs "href", bs "/x"⟩] [])
      ⟨2, 0, []⟩ 0 (bs "aws") = .done ⟨2, 0, []⟩ [] := by
  decide

/-- C9, amended. At depth 0, for every node that is not itself an anchor
element, or whose denylisted child is not its first child: if a child matches
the splitting shape and its anchor title is exactly `"All Providers"` or
`"AWS Provider"`, the run (the bytes written to the sink of the caller, the
writer state, the created files and their contents, and whether it panics)
is the same as for the node with that child removed. -/
theorem denylisted_skipped (ToLower : Bytes → Bytes) (create : Bytes → Bool) (ty : NodeType)
    (data : Bytes)
    (attr : List Attribute) (pre post : List Node) (c a t : Node) (f : TableAwareWriter)
    (name : Bytes)
    (hroot : ¬ (ty = NodeType.ElementNode ∧ data = bs "a") ∨ pre ≠ [])
    (ha : secondChild c = some a) (had : a.Data = bs "a") (ht : a.FirstChild = some t)
    (hden : t.Data = bs "All Providers" ∨ t.Data = bs "AWS Provider") :
    processProviderIndex ToLower create (.mk ty data attr (pre ++ c :: post)) f 0 name =
      processProviderIndex ToLower create (.mk ty data attr (pre ++ post)) f 0 name := by
  have hloop : ∀ g : TableAwareWriter,
      processChildren ToLower create (pre ++ c :: post) g 0 name =
        processChildren ToLower create (pre ++ post) g 0 name := by
    intro g
    rw [processChildren_append, processChildren_append]
    congr 1
    funext f1
    rw [processChildren_cons, childStep_denylisted ToLower create c a t f1 name ha had ht hden,
      andThen_pure]
  rw [processProviderIndex, processProviderIndex, hloop]
  rcases hroot with h | h
  · rw [if_neg h, if_neg h]
  · by_cases hanc : ty = NodeType.ElementNode ∧ data = bs "a"
    · rw [if_pos hanc, if_pos hanc]
      congr 1
      rw [writeMDLink_anchor (.mk ty data attr (pre ++ c :: post)) _ _ hanc.1 hanc.2,
        writeMDLink_anchor (.mk ty data attr (pre ++ post)) _ _ hanc.1 hanc.2,
        linkText_append ty data attr pre (c :: post) post h]
      rfl
    · rw [if_neg hanc, if_neg hanc]

/-- Witness for C9: a navigation list with the entries "EC2", "All Providers"
and a plain link; the second entry is skipped. -/
theorem denylisted_skipped_witness :
    processProviderIndex asciiToLower createAll
      (.mk .ElementNode (bs "ul") []
        ([] ++ (.mk .ElementNode (bs "li") [] [.mk .ElementNode (bs "span") [] [],
            .mk .ElementNode (bs "a") [⟨[], bs "href", bs "/docs/all"⟩]
              [.mk .TextNode (bs "All Providers") [] []]]) ::
          [.mk .ElementNode (bs "li") [] [.mk .ElementNode (bs "a") [⟨[], bs "href", bs "/docs/x"⟩]
              [.mk .TextNode (bs "X") [] []]]]))
      ⟨2, 0, []⟩ 0 (bs "aws") =
    processProviderIndex asciiToLower createAll
      (.mk .ElementNode (bs "ul") []
        ([] ++ [.mk .ElementNode (bs "li") [] [.mk .ElementNode (bs "a") [⟨[], bs "href", bs "/docs/x"⟩]
              [.mk .TextNode (bs "X") [] []]]]))
      ⟨2, 0, []⟩ 0 (bs "aws") :=
  denylisted_skipped asciiToLower createAll .ElementNode (bs "ul") [] [] _ _
    (.mk .ElementNode (bs "a") [⟨[], bs "href", bs "/docs/all"⟩]
      [.mk .TextNode (bs "All Providers") [] []])
    (.mk .TextNode (bs "All Providers") [] []) ⟨2, 0, []⟩ (bs "aws")
    (Or.inl (by decide)) rfl (by decide) rfl (Or.inl (by decide))

/-- C18. For every string `s` and every writer state, `WriteHeader(s)` hands
the underlying sink exactly `s`, with no table framing, and neither
`WriteHeader` nor `WriteTableHeader` changes `CurrentCol` or `MaxCols`. -/
theorem header_calls_keep_column (taw : TableAwareWriter) (s : Bytes) :
    (taw.WriteHeader s).1 = ⟨taw.MaxCols, taw.CurrentCol, taw.Output ++ s⟩ ∧
    taw.WriteTableHeader.1.CurrentCol = taw.CurrentCol ∧
    taw.WriteTableHeader.1.MaxCols = taw.MaxCols := by
  refine ⟨rfl, rfl, rfl⟩

/-- C19. The denylist is an exact match: `blacklist s` is true if and only if
`s` is `"All Providers"` or `"AWS Provider"`; strings that contain or extend
these titles, or differ in case or surrounding blanks, are not denylisted. -/
theorem blacklist_exact (s : Bytes) :
    (blacklist s = true ↔ s = bs "All Providers" ∨ s = bs "AWS Provider") ∧
    blacklist (bs "All Providers ") = false ∧
    blacklist (bs " AWS Provider") = false ∧
    blacklist (bs "all providers") = false ∧
    blacklist (bs "AWS Provider Guide") = false ∧
    blacklist (bs "AWS") = false := by
  refine ⟨?_, by decide, by decide, by decide, by decide, by decide⟩
  unfold blacklist
  by_cases h1 : s = bs "All Providers"
  · simp [h1]
  · by_cases h2 : s = bs "AWS Provider"
    · simp [h2]
    · simp [h1, h2]

theorem writeBytes_length (taw : TableAwareWriter) (p : Bytes) :
    ((taw.writeBytes p).length : Int) =
      if taw.CurrentCol ≥ wrapInt (taw.MaxCols - 1) then (p.length : Int) + 6
      else (p.length : Int) + 3 := by
  have h3 : (bs " | ").length = 3 := by decide
  have h3b : (bs " |\n").length = 3 := by decide
  unfold TableAwareWriter.writeBytes
  split
  · simp only [List.nil_append, List.length_append, h3, h3b]
    push_cast
    omega
  · simp only [List.nil_append, List.length_append, h3]
    push_cast
    omega

/-- C20. With an underlying sink that accepts and counts every byte, `Write(p)`
returns `len(p) + 3` when the row stays open and `len(p) + 6` when the row is
closed, a count that exceeds `len(p)`; over any underlying writer, `Write`
returns the result of the underlying write of the framed bytes, and
`CurrentCol` gets the same new value whatever that result is. -/
theorem Write_returns_framed_count (taw : TableAwareWriter) (p : Bytes)
    (under : Bytes → Int × Bool) :
    (taw.Write p).2 =
      (if taw.CurrentCol ≥ wrapInt (taw.MaxCols - 1) then (p.length : Int) + 6
       else (p.length : Int) + 3) ∧
    (taw.Write p).2 > (p.length : Int) ∧
    (taw.WriteVia under p).2 = under (taw.writeBytes p) ∧
    (taw.WriteVia under p).1 = (taw.Write p).1.CurrentCol ∧
    taw.WriteVia acceptAll p = ((taw.Write p).1.CurrentCol, ((taw.Write p).2, false)) := by
  have hlen := writeBytes_length taw p
  have h2 : (taw.Write p).2 = ((taw.writeBytes p).length : Int) := by
    unfold TableAwareWriter.Write
    split <;> rfl
  refine ⟨?_, ?_, ?_, ?_, ?_⟩
  · rw [h2, hlen]
  · rw [h2, hlen]
    split <;> omega
  · unfold TableAwareWriter.WriteVia TableAwareWriter.writeBytes
    split <;> rfl
  · unfold TableAwareWriter.WriteVia TableAwareWriter.Write
    split <;> rfl
  · unfold TableAwareWriter.WriteVia TableAwareWriter.Write TableAwareWriter.writeBytes acceptAll
    split <;> rfl

/-- C13: the run on a depth-0 entry whose second sub-node is tagged `a` but
has no child panics (line 195 dereferences the nil `FirstChild`) before
anything is written, so the sibling after it is not processed; `writeMDLink`
on the same anchor guards the nil `FirstChild` and writes nothing. -/
theorem missing_title_panics :
    processProviderIndex asciiToLower createAll
      (.mk .ElementNode (bs "ul") []
        [.mk .ElementNode (bs "li") [] [.mk .ElementNode (bs "span") [] [],
           .mk .ElementNode (bs "a") [⟨[], bs "href", bs "/docs/e"⟩] []],
         .mk .ElementNode (bs "li") [] [.mk .ElementNode (bs "a") [⟨[], bs "href", bs "/docs/x"⟩]
           [.mk .TextNode (bs "X") [] []]]])
      ⟨2, 0, []⟩ 0 (bs "aws") = .abort .panic ⟨2, 0, []⟩ [] ∧
    writeMDLink (.mk .ElementNode (bs "a") [⟨[], bs "href", bs "/docs/e"⟩] []) ⟨2, 0, []⟩ (bs "")
      = ⟨2, 0, []⟩ := by
  decide

theorem Write_prepend (out : Bytes) (taw : TableAwareWriter) (p : Bytes) :
    ((prepend out taw).Write p).1 = prepend out (taw.Write p).1 := by
  unfold TableAwareWriter.Write TableAwareWriter.writeBytes prepend
  dsimp only
  split <;> simp [List.append_assoc]

theorem WriteHeader_prepend (out : Bytes) (taw : TableAwareWriter) (s : Bytes) :
    ((prepend out taw).WriteHeader s).1 = prepend out (taw.WriteHeader s).1 := by
  simp [TableAwareWriter.WriteHeader, prepend, List.append_assoc]

theorem WriteTableHeader_prepend (out : Bytes) (taw : TableAwareWriter) :
    (prepend out taw).WriteTableHeader.1 = prepend out taw.WriteTableHeader.1 := by
  simp [TableAwareWriter.WriteTableHeader, TableAwareWriter.tableHeader, prepend,
    List.append_assoc]

theorem writeHref_prepend (out text : Bytes) (f : TableAwareWriter) (r val : Bytes) :
    writeHref text (prepend out f) r val = prepend out (writeHref text f r val) := by
  unfold writeHref
  dsimp only
  generalize (if r ≠ bs "" then r else val) = href
  by_cases h1 : href = bs "#"
  · rw [if_pos h1, if_pos h1, WriteHeader_prepend, WriteTableHeader_prepend]
  · rw [if_neg h1, if_neg h1]
    by_cases h2 : text ≠ bs ""
    · rw [if_pos h2, if_pos h2, Write_prepend]
    · rw [if_neg h2, if_neg h2]

theorem writeMDLinkAttrs_prepend (out text : Bytes) (f : TableAwareWriter) (r : Bytes)
    (attrs : List Attribute) :
    writeMDLinkAttrs text (prepend out f) r attrs = prepend out (writeMDLinkAttrs text f r attrs) := by
  induction attrs with
  | nil => rfl
  | cons a rest ih =>
    unfold writeMDLinkAttrs
    split
    · exact writeHref_prepend out text f r a.Val
    · exact ih

theorem writeMDLink_prepend (out : Bytes) (n : Node) (f : TableAwareWriter) (r : Bytes) :
    writeMDLink n (prepend out f) r = prepend out (writeMDLink n f r) := by
  unfold writeMDLink
  split
  · exact writeMDLinkAttrs_prepend out _ f r _
  · rfl

theorem andThen_shift (out : Bytes) (r : Outcome) (k1 k2 : TableAwareWriter → Outcome)
    (hk : ∀ g, k1 (prepend out g) = shift out (k2 g)) :
    andThen (shift out r) k1 = shift out (andThen r k2) := by
  cases r with
  | abort why f files => rfl
  | done f files =>
    simp only [shift, andThen, hk]
    cases k2 f with
    | abort why f2 files2 => rfl
    | done f2 files2 => rfl

theorem childStep_prepend (ToLower : Bytes → Bytes) (create : Bytes → Bool) (out : Bytes)
    (c : Node) (f : TableAwareWriter) (depth : Int) (name : Bytes)
    (ih : ∀ g d, processProviderIndex ToLower create c (prepend out g) d name =
      shift out (processProviderIndex ToLower create c g d name)) :
    childStep ToLower create c (prepend out f) depth name =
      shift out (childStep ToLower create c f depth name) := by
  unfold childStep
  by_cases hs : splitShape depth c = true
  · rw [if_pos hs, if_pos hs]
    cases (secondChild c).bind Node.FirstChild with
    | none => rfl
    | some t =>
      dsimp only
      by_cases hb : (!blacklist t.Data) = true
      · rw [if_pos hb, if_pos hb]
        have hf1 : (match secondChild c with
            | some a => writeMDLink a (prepend out f)
                (name ++ bs "_" ++ ToLower (Replace t.Data 32 95))
            | none => prepend out f) =
            prepend out (match secondChild c with
              | some a => writeMDLink a f (name ++ bs "_" ++ ToLower (Replace t.Data 32 95))
              | none => f) := by
          cases secondChild c with
          | none => rfl
          | some a => exact writeMDLink_prepend out a f _
        rw [hf1]
        by_cases hc : create (name ++ bs "_" ++ ToLower (Replace t.Data 32 95) ++ bs ".md") = true
        · rw [if_pos hc, if_pos hc]
          cases processProviderIndex ToLower create c
              ⟨2, 0, bs "[" ++ name ++ bs "](" ++ name ++ bs ")\n"⟩ (depth + 1) name with
          | abort why tw inner => rfl
          | done tw inner => rfl
        · rw [if_neg hc, if_neg hc]
          rfl
      · rw [if_neg hb, if_neg hb]
        rfl
  · rw [if_neg hs, if_neg hs]
    exact ih f (depth + 1)

mutual

theorem processProviderIndex_prepend (ToLower : Bytes → Bytes) (create : Bytes → Bool)
    (out : Bytes) (name : Bytes) :
    ∀ (n : Node) (f : TableAwareWriter) (depth : Int),
      processProviderIndex ToLower create n (prepend out f) depth name =
        shift out (processProviderIndex ToLower create n f depth name)
  | .mk ty data attr cs, f, depth => by
    rw [processProviderIndex, processProviderIndex]
    by_cases h : ty = NodeType.ElementNode ∧ data = bs "a"
    · rw [if_pos h, if_pos h, writeMDLink_prepend]
      exact processChildren_prepend ToLower create out name cs _ depth
    · rw [if_neg h, if_neg h]
      exact processChildren_prepend ToLower create out name cs _ depth

theorem processChildren_prepend (ToLower : Bytes → Bytes) (create : Bytes → Bool)
    (out : Bytes) (name : Bytes) :
    ∀ (cs : List Node) (f : TableAwareWriter) (depth : Int),
      processChildren ToLower create cs (prepend out f) depth name =
        shift out (processChildren ToLower create cs f depth name)
  | [], f, depth => by
    rw [processChildren_nil, processChildren_nil]
    rfl
  | c :: rest, f, depth => by
    rw [processChildren_cons, processChildren_cons,
      childStep_prepend ToLower create out c f depth name
        (fun g d => processProviderIndex_prepend ToLower create out name c g d)]
    exact andThen_shift out _ _ _
      (fun g => processChildren_prepend ToLower create out name rest g depth)

end

theorem prepend_fresh (out : Bytes) (m k : Int) :
    prepend out ⟨m, k, []⟩ = ⟨m, k, out⟩ := by
  simp [prepend]

/-- The iteration for a qualifying entry that is not denylisted: the link is
rendered into the sink of the caller with the file name as override; when
`os.Create` succeeds, one file is created, holding the back-link and then what
the run on the entry writes through a fresh two-column writer; when it fails,
the process ends there and no file is created. -/
theorem childStep_split (ToLower : Bytes → Bytes) (create : Bytes → Bool) (c a t : Node)
    (f : TableAwareWriter) (name : Bytes) (ha : secondChild c = some a) (had : a.Data = bs "a")
    (ht : a.FirstChild = some t) (hden : blacklist t.Data = false) :
    ∃ tw, processProviderIndex ToLower create c ⟨2, 0, []⟩ 1 name = .done tw [] ∧
      childStep ToLower create c f 0 name =
        if create (fileName ToLower name t.Data ++ bs ".md") then
          .done (writeMDLink a f (fileName ToLower name t.Data))
            [⟨fileName ToLower name t.Data ++ bs ".md", backLink name ++ tw.Output⟩]
        else
          .abort (.fatal (fileName ToLower name t.Data ++ bs ".md"))
            (writeMDLink a f (fileName ToLower name t.Data)) [] := by
  obtain ⟨tw, htw⟩ := processProviderIndex_deep ToLower create c ⟨2, 0, []⟩ 1 name (le_refl 1)
  refine ⟨tw, htw, ?_⟩
  have hs : splitShape 0 c = true := by simp [splitShape, ha, had]
  have hrec : processProviderIndex ToLower create c
      ⟨2, 0, bs "[" ++ name ++ bs "](" ++ name ++ bs ")\n"⟩ ((0 : Int) + 1) name =
      .done (prepend (backLink name) tw) [] := by
    have := processProviderIndex_prepend ToLower create (backLink name) name c ⟨2, 0, []⟩ 1
    rw [prepend_fresh, htw] at this
    exact this
  have hb : (secondChild c).bind Node.FirstChild = some t := by rw [ha]; exact ht
  unfold childStep
  rw [if_pos hs, hb]
  simp only [ha, hden, Bool.not_false, if_true, hrec]
  rfl

mutual

theorem processProviderIndex_deep_congr (T1 T2 : Bytes → Bytes) (c1 c2 : Bytes → Bool)
    (name : Bytes) :
    ∀ (n : Node) (f : TableAwareWriter) (depth : Int), 1 ≤ depth →
      processProviderIndex T1 c1 n f depth name = processProviderIndex T2 c2 n f depth name
  | .mk ty data attr cs, f, depth, h => by
    rw [processProviderIndex, processProviderIndex]
    exact processChildren_deep_congr T1 T2 c1 c2 name cs _ depth h

theorem processChildren_deep_congr (T1 T2 : Bytes → Bytes) (c1 c2 : Bytes → Bool)
    (name : Bytes) :
    ∀ (cs : List Node) (f : TableAwareWriter) (depth : Int), 1 ≤ depth →
      processChildren T1 c1 cs f depth name = processChildren T2 c2 cs f depth name
  | [], f, depth, _ => by rw [processChildren_nil, processChildren_nil]
  | c :: rest, f, depth, h => by
    have hs := splitShape_deep depth c (by omega)
    rw [processChildren_nosplit T1 c1 c rest f depth name hs,
      processChildren_nosplit T2 c2 c rest f depth name hs,
      processProviderIndex_deep_congr T1 T2 c1 c2 name c f (depth + 1) (by omega)]
    congr 1
    funext f1
    exact processChildren_deep_congr T1 T2 c1 c2 name rest f1 depth h

end

theorem fileName_ne (ToLower : Bytes → Bytes) (name title : Bytes) :
    fileName ToLower name title ≠ bs "" ∧ fileName ToLower name title ≠ bs "#" := by
  have hmem : (95 : UInt8) ∈ fileName ToLower name title := by
    have e : bs "_" = [95] := by decide
    simp [fileName, e]
  constructor
  · intro h
    rw [h] at hmem
    exact absurd hmem (by decide)
  · intro h
    rw [h] at hmem
    exact absurd hmem (by decide)

theorem linkText_of_firstChild (a t : Node) (ht : a.FirstChild = some t) :
    linkText a = t.Data := by
  simp [linkText, ht]

/-- C12, as stated, fails: for the qualifying entry titled `I/O` and the base
name `aws` the file would be `aws_i/o.md`; in a working directory without
sub-directories `os.Create` fails on it, `check` ends the process, no file is
created and the next entry is not processed. -/
theorem section_file_counterexample :
    freshDir (bs "aws_i/o.md") = false ∧
    processProviderIndex asciiToLower freshDir
      (.mk .ElementNode (bs "ul") []
        [.mk .ElementNode (bs "li") [] [.mk .ElementNode (bs "span") [] [],
           .mk .ElementNode (bs "a") [⟨[], bs "href", bs "#"⟩] [.mk .TextNode (bs "I/O") [] []]],
         .mk .ElementNode (bs "li") [] [.mk .ElementNode (bs "a") [⟨[], bs "href", bs "/docs/x"⟩]
           [.mk .TextNode (bs "X") [] []]]])
      ⟨2, 0, []⟩ 0 (bs "aws") =
        .abort (.fatal (bs "aws_i/o.md")) ⟨2, 1, bs " | [I/O](aws_i/o)"⟩ [] := by
  decide

/-- C12, amended. For every qualifying, non-denylisted depth-0 entry `c` with
title `t.Data` and every base name such that `os.Create` succeeds on the name
`name ++ "_" ++ ToLower (title with every space replaced by '_') ++ ".md"`:
the iteration for `c` creates the file of that name, and the bytes written to
it are the back-link line `"[" ++ name ++ "](" ++ name ++ ")\n"` followed by
exactly the output of the run on `c` at depth 1 through a fresh two-column
writer at column 0 (a run that returns and creates no file); in the loop over
the children `pre ++ c :: post` this iteration follows the iterations for
`pre`, when these have returned, and its file is created between those of
`pre` and `post`. -/
theorem section_file_content (ToLower : Bytes → Bytes) (create : Bytes → Bool) (c a t : Node)
    (pre post : List Node) (f : TableAwareWriter) (name : Bytes)
    (ha : secondChild c = some a) (had : a.Data = bs "a") (ht : a.FirstChild = some t)
    (hden : blacklist t.Data = false)
    (hcreate : create (name ++ bs "_" ++ ToLower (Replace t.Data 32 95) ++ bs ".md") = true) :
    ∃ tw, processProviderIndex ToLower create c ⟨2, 0, []⟩ 1 name = .done tw [] ∧
      childStep ToLower create c f 0 name =
        .done (writeMDLink a f (name ++ bs "_" ++ ToLower (Replace t.Data 32 95)))
          [⟨name ++ bs "_" ++ ToLower (Replace t.Data 32 95) ++ bs ".md",
            (bs "[" ++ name ++ bs "](" ++ name ++ bs ")\n") ++ tw.Output⟩] ∧
      processChildren ToLower create (pre ++ c :: post) f 0 name =
        andThen (processChildren ToLower create pre f 0 name) (fun f0 =>
          andThen (.done (writeMDLink a f0 (name ++ bs "_" ++ ToLower (Replace t.Data 32 95)))
            [⟨name ++ bs "_" ++ ToLower (Replace t.Data 32 95) ++ bs ".md",
              (bs "[" ++ name ++ bs "](" ++ name ++ bs ")\n") ++ tw.Output⟩])
            (fun f1 => processChildren ToLower create post f1 0 name)) := by
  have hc : create (fileName ToLower name t.Data ++ bs ".md") = true := hcreate
  obtain ⟨tw, htw, hstep⟩ := childStep_split ToLower create c a t f name ha had ht hden
  rw [if_pos hc] at hstep
  refine ⟨tw, htw, hstep, ?_⟩
  rw [processChildren_append]
  congr 1
  funext f0
  obtain ⟨tw0, htw0, hstep0⟩ := childStep_split ToLower create c a t f0 name ha had ht hden
  rw [if_pos hc] at hstep0
  have e : tw0 = tw := by
    rw [htw] at htw0
    exact ((Outcome.done.injEq _ _ _ _).mp htw0).1.symm
  rw [processChildren_cons, hstep0, e]
  rfl

/-- Witness for C12: the entry `<li><span/><a href="#">EC2 Instance</a></li>`
with base name `aws`, in a working directory without sub-directories. -/
theorem section_file_content_witness :
    ∃ tw, processProviderIndex asciiToLower freshDir
        (.mk .ElementNode (bs "li") [] [.mk .ElementNode (bs "span") [] [],
          .mk .ElementNode (bs "a") [⟨[], bs "href", bs "#"⟩]
            [.mk .TextNode (bs "EC2 Instance") [] []]]) ⟨2, 0, []⟩ 1 (bs "aws") = .done tw [] ∧
      childStep asciiToLower freshDir
        (.mk .ElementNode (bs "li") [] [.mk .ElementNode (bs "span") [] [],
          .mk .ElementNode (bs "a") [⟨[], bs "href", bs "#"⟩]
            [.mk .TextNode (bs "EC2 Instance") [] []]]) ⟨2, 0, []⟩ 0 (bs "aws") =
        .done (writeMDLink (.mk .ElementNode (bs "a") [⟨[], bs "href", bs "#"⟩]
            [.mk .TextNode (bs "EC2 Instance") [] []]) ⟨2, 0, []⟩
            (bs "aws" ++ bs "_" ++ asciiToLower (Replace (bs "EC2 Instance") 32 95)))
          [⟨bs "aws" ++ bs "_" ++ asciiToLower (Replace (bs "EC2 Instance") 32 95) ++ bs ".md",
            (bs "[" ++ bs "aws" ++ bs "](" ++ bs "aws" ++ bs ")\n") ++ tw.Output⟩] := by
  obtain ⟨tw, h1, h2, _⟩ := section_file_content asciiToLower freshDir
    (.mk .ElementNode (bs "li") [] [.mk .ElementNode (bs "span") [] [],
      .mk .ElementNode (bs "a") [⟨[], bs "href", bs "#"⟩]
        [.mk .TextNode (bs "EC2 Instance") [] []]])
    (.mk .ElementNode (bs "a") [⟨[], bs "href", bs "#"⟩] [.mk .TextNode (bs "EC2 Instance") [] []])
    (.mk .TextNode (bs "EC2 Instance") [] []) [] [] ⟨2, 0, []⟩ (bs "aws")
    rfl (by decide) rfl (by decide) (by decide)
  exact ⟨tw, h1, h2⟩

theorem writeMDLink_fileName (ToLower : Bytes → Bytes) (a t : Node) (f : TableAwareWriter)
    (name h : Bytes) (had : a.Data = bs "a") (ht : a.FirstChild = some t)
    (hty : a.Type_ = NodeType.ElementNode) (hh : firstHref a.Attr = some h)
    (htitle : t.Data ≠ bs "")
    (hdocs : HasPrefix (fileName ToLower name t.Data) (bs "/docs") = false) :
    writeMDLink a f (fileName ToLower name t.Data) =
      (f.Write (bs "[" ++ t.Data ++ bs "](" ++ fileName ToLower name t.Data ++ bs ")")).1 := by
  have hfn := fileName_ne ToLower name t.Data
  rw [writeMDLink_anchor a f _ hty had, writeMDLinkAttrs_some _ _ _ _ h hh,
    linkText_of_firstChild a t ht]
  unfold writeHref
  dsimp only
  rw [if_pos hfn.1, if_neg hfn.2, if_pos htitle, hdocs]
  rfl

/-- C11, as stated, fails: for the entry `<li><span/><a>EC2 Instance</a></li>`
the file `aws_ec2_instance.md` holds the back-link line only, so there is no
table frame on its second line; when the anchor carries `href="#"` the second
line is the heading `# EC2 Instance`, and when it carries a `/docs` link the
second line is a table cell. -/
theorem ec2_scenario_counterexample :
    processProviderIndex asciiToLower createAll
      (.mk .ElementNode (bs "ul") []
        [.mk .ElementNode (bs "li") [] [.mk .ElementNode (bs "span") [] [],
           .mk .ElementNode (bs "a") [] [.mk .TextNode (bs "EC2 Instance") [] []]]])
      ⟨2, 0, []⟩ 0 (bs "aws") =
        .done ⟨2, 0, []⟩ [⟨bs "aws_ec2_instance.md", bs "[aws](aws)\n"⟩] ∧
    splitLines (bs "[aws](aws)\n") = [bs "[aws](aws)", bs ""] ∧
    processProviderIndex asciiToLower createAll
      (.mk .ElementNode (bs "ul") []
        [.mk .ElementNode (bs "li") [] [.mk .ElementNode (bs "span") [] [],
           .mk .ElementNode (bs "a") [⟨[], bs "href", bs "#"⟩]
             [.mk .TextNode (bs "EC2 Instance") [] []]]])
      ⟨2, 0, []⟩ 0 (bs "aws") =
        .done ⟨2, 1, bs " | [EC2 Instance](aws_ec2_instance)"⟩
          [⟨bs "aws_ec2_instance.md", bs "[aws](aws)\n# EC2 Instance\n\n| | |\n| --- | --- |\n"⟩] ∧
    (splitLines (bs "[aws](aws)\n# EC2 Instance\n\n| | |\n| --- | --- |\n"))[1]?
      = some (bs "# EC2 Instance") ∧
    processProviderIndex asciiToLower createAll
      (.mk .ElementNode (bs "ul") []
        [.mk .ElementNode (bs "li") [] [.mk .ElementNode (bs "span") [] [],
           .mk .ElementNode (bs "a") [⟨[], bs "href", bs "/docs/e"⟩]
             [.mk .TextNode (bs "EC2 Instance") [] []]]])
      ⟨2, 0, []⟩ 0 (bs "aws") =
        .done ⟨2, 1, bs " | [EC2 Instance](aws_ec2_instance)"⟩
          [⟨bs "aws_ec2_instance.md",
            bs "[aws](aws)\n | [EC2 Instance](https://www.terraform.io/docs/e)"⟩] ∧
    HasPrefix (bs "") (bs "| | |") = false ∧
    HasPrefix (bs "# EC2 Instance") (bs "| | |") = false ∧
    HasPrefix (bs " | [EC2 Instance](https://www.terraform.io/docs/e)") (bs "| | |") = false := by
  decide

/-- C11, amended. For a navigation tree with the one depth-0 entry
`<li><span/><a href="#">EC2 Instance</a></li>` and base name `aws` (with a
`ToLower` that lower-cases `EC2_Instance`, and `os.Create` succeeding on
`aws_ec2_instance.md`), `processProviderIndex` at depth 0 creates exactly one
file, named `aws_ec2_instance.md`; its first line is `[aws](aws)`, its second
line is the heading `# EC2 Instance`, its third line is empty and the
two-column table frame `| | |` begins on its fourth line; the sink of the
caller receives the cell `[EC2 Instance](aws_ec2_instance)`. -/
theorem ec2_scenario (ToLower : Bytes → Bytes) (create : Bytes → Bool) (f : TableAwareWriter)
    (hlow : ToLower (bs "EC2_Instance") = bs "ec2_instance")
    (hcreate : create (bs "aws_ec2_instance.md") = true) :
    processProviderIndex ToLower create
      (.mk .ElementNode (bs "ul") []
        [.mk .ElementNode (bs "li") [] [.mk .ElementNode (bs "span") [] [],
           .mk .ElementNode (bs "a") [⟨[], bs "href", bs "#"⟩]
             [.mk .TextNode (bs "EC2 Instance") [] []]]])
      f 0 (bs "aws") =
        .done (f.Write (bs "[EC2 Instance](aws_ec2_instance)")).1
          [⟨bs "aws_ec2_instance.md", bs "[aws](aws)\n# EC2 Instance\n\n| | |\n| --- | --- |\n"⟩] ∧
    splitLines (bs "[aws](aws)\n# EC2 Instance\n\n| | |\n| --- | --- |\n") =
      [bs "[aws](aws)", bs "# EC2 Instance", bs "", bs "| | |", bs "| --- | --- |", bs ""] := by
  refine ⟨?_, by decide⟩
  have hfile : fileName ToLower (bs "aws") (bs "EC2 Instance") = bs "aws_ec2_instance" := by
    have e : Replace (bs "EC2 Instance") 32 95 = bs "EC2_Instance" := by decide
    unfold fileName
    rw [e, hlow]
    decide
  have e2 : bs "aws_ec2_instance" ++ bs ".md" = bs "aws_ec2_instance.md" := by decide
  obtain ⟨tw, htw, hstep⟩ := childStep_split ToLower create
    (.mk .ElementNode (bs "li") [] [.mk .ElementNode (bs "span") [] [],
      .mk .ElementNode (bs "a") [⟨[], bs "href", bs "#"⟩] [.mk .TextNode (bs "EC2 Instance") [] []]])
    (.mk .ElementNode (bs "a") [⟨[], bs "href", bs "#"⟩] [.mk .TextNode (bs "EC2 Instance") [] []])
    (.mk .TextNode (bs "EC2 Instance") [] []) f (bs "aws") rfl (by decide) rfl (by decide)
  have hrun : processProviderIndex asciiToLower createAll
      (.mk .ElementNode (bs "li") [] [.mk .ElementNode (bs "span") [] [],
        .mk .ElementNode (bs "a") [⟨[], bs "href", bs "#"⟩]
          [.mk .TextNode (bs "EC2 Instance") [] []]]) ⟨2, 0, []⟩ 1 (bs "aws") =
      .done ⟨2, 0, bs "# EC2 Instance\n\n| | |\n| --- | --- |\n"⟩ [] := by decide
  rw [processProviderIndex_deep_congr ToLower asciiToLower create createAll (bs "aws") _ _ 1
    (le_refl 1), hrun] at htw
  have htw' : tw = ⟨2, 0, bs "# EC2 Instance\n\n| | |\n| --- | --- |\n"⟩ :=
    ((Outcome.done.injEq _ _ _ _).mp htw).1.symm
  have hlink : writeMDLink
      (.mk .ElementNode (bs "a") [⟨[], bs "href", bs "#"⟩] [.mk .TextNode (bs "EC2 Instance") [] []])
      f (fileName ToLower (bs "aws") (bs "EC2 Instance")) =
      (f.Write (bs "[" ++ bs "EC2 Instance" ++ bs "](" ++
        fileName ToLower (bs "aws") (bs "EC2 Instance") ++ bs ")")).1 :=
    writeMDLink_fileName ToLower
      (.mk .ElementNode (bs "a") [⟨[], bs "href", bs "#"⟩] [.mk .TextNode (bs "EC2 Instance") [] []])
      (.mk .TextNode (bs "EC2 Instance") [] []) f (bs "aws") (bs "#") (by decide) rfl (by decide)
      (by decide) (by decide)
      (by show HasPrefix (fileName ToLower (bs "aws") (bs "EC2 Instance")) (bs "/docs") = false
          rw [hfile]; decide)
  have hstep2 : childStep ToLower create
      (.mk .ElementNode (bs "li") [] [.mk .ElementNode (bs "span") [] [],
        .mk .ElementNode (bs "a") [⟨[], bs "href", bs "#"⟩]
          [.mk .TextNode (bs "EC2 Instance") [] []]]) f 0 (bs "aws") =
      .done (f.Write (bs "[EC2 Instance](aws_ec2_instance)")).1
        [⟨bs "aws_ec2_instance.md",
          bs "[aws](aws)\n# EC2 Instance\n\n| | |\n| --- | --- |\n"⟩] := by
    rw [hstep]
    show (if create (fileName ToLower (bs "aws") (bs "EC2 Instance") ++ bs ".md") = true then
        Outcome.done (writeMDLink _ f (fileName ToLower (bs "aws") (bs "EC2 Instance")))
          [(⟨fileName ToLower (bs "aws") (bs "EC2 Instance") ++ bs ".md",
            backLink (bs "aws") ++ tw.Output⟩ : File)]
      else _) = _
    have e1 : bs "[" ++ bs "EC2 Instance" ++ bs "](" ++ bs "aws_ec2_instance" ++ bs ")"
        = bs "[EC2 Instance](aws_ec2_instance)" := by decide
    have e3 : backLink (bs "aws") ++ bs "# EC2 Instance\n\n| | |\n| --- | --- |\n"
        = bs "[aws](aws)\n# EC2 Instance\n\n| | |\n| --- | --- |\n" := by decide
    rw [hlink, hfile, htw', e1, e2, e3, if_pos hcreate]
  rw [processProviderIndex, if_neg (by decide), processChildren_cons, hstep2]
  simp only [andThen, processChildren_nil, List.append_nil]

/-- Witness for C11: the scenario with the ASCII lower-casing function, every
`os.Create` succeeding, and a fresh two-column sink for the index page. -/
theorem ec2_scenario_witness :
    processProviderIndex asciiToLower createAll
      (.mk .ElementNode (bs "ul") []
        [.mk .ElementNode (bs "li") [] [.mk .ElementNode (bs "span") [] [],
           .mk .ElementNode (bs "a") [⟨[], bs "href", bs "#"⟩]
             [.mk .TextNode (bs "EC2 Instance") [] []]]])
      ⟨2, 0, []⟩ 0 (bs "aws") =
        .done ((⟨2, 0, []⟩ : TableAwareWriter).Write (bs "[EC2 Instance](aws_ec2_instance)")).1
          [⟨bs "aws_ec2_instance.md", bs "[aws](aws)\n# EC2 Instance\n\n| | |\n| --- | --- |\n"⟩] :=
  (ec2_scenario asciiToLower createAll ⟨2, 0, []⟩ (by decide) rfl).1

theorem splitShape_true (depth : Int) (c : Node) (h : splitShape depth c = true) :
    ∃ a, secondChild c = some a ∧ a.Data = bs "a" ∧ depth = 0 := by
  unfold splitShape at h
  cases ha : secondChild c with
  | none => simp [ha] at h
  | some a =>
    simp only [ha, Bool.and_eq_true, decide_eq_true_eq] at h
    exact ⟨a, rfl, h.2, h.1⟩

/-- The iteration for one child at depth 0, for a child that is not malformed
and whose file, if it qualifies, can be created: it returns, and creates the
file of the child exactly when the child qualifies. -/
theorem childStep_files (ToLower : Bytes → Bytes) (create : Bytes → Bool) (c : Node)
    (f : TableAwareWriter) (name : Bytes) (hwf : malformed c = false)
    (hcreate : qualifies c = true → create (entryFile ToLower create name c).name = true) :
    ∃ f1, childStep ToLower create c f 0 name =
      .done f1 (if qualifies c then [entryFile ToLower create name c] else []) := by
  by_cases hs : splitShape 0 c = true
  · obtain ⟨a, ha, had, _⟩ := splitShape_true 0 c hs
    cases ht : titleNode c with
    | none => simp [malformed, hs, ht] at hwf
    | some t =>
      have hta : a.FirstChild = some t := by
        have := ht
        unfold titleNode at this
        rw [ha] at this
        exact this
      by_cases hb : blacklist t.Data = true
      · have hq : qualifies c = false := by simp [qualifies, hs, ht, hb]
        refine ⟨f, ?_⟩
        rw [hq]
        have hb2 : (secondChild c).bind Node.FirstChild = some t := ht
        unfold childStep
        rw [if_pos hs, hb2]
        simp [hb]
      · have hb' : blacklist t.Data = false := by simpa using hb
        have hq : qualifies c = true := by simp [qualifies, hs, ht, hb']
        obtain ⟨tw, htw, hstep⟩ := childStep_split ToLower create c a t f name ha had hta hb'
        have hc : create (fileName ToLower name t.Data ++ bs ".md") = true := by
          have := hcreate hq
          simpa [entryFile, entryTitle, ht] using this
        rw [if_pos hc] at hstep
        refine ⟨writeMDLink a f (fileName ToLower name t.Data), ?_⟩
        rw [hstep, hq]
        simp only [if_true, entryFile, entryTitle, ht, htw, Outcome.sink]
  · have hs' : splitShape 0 c = false := by simpa using hs
    have hq : qualifies c = false := by simp [qualifies, hs']
    obtain ⟨f1, h1⟩ := processProviderIndex_deep ToLower create c f 1 name (le_refl 1)
    refine ⟨f1, ?_⟩
    unfold childStep
    rw [if_neg hs, hq]
    exact h1

theorem processChildren_files (ToLower : Bytes → Bytes) (create : Bytes → Bool) (name : Bytes)
    (cs : List Node) :
    ∀ (f : TableAwareWriter), (∀ c ∈ cs, malformed c = false) →
    (∀ c ∈ cs, qualifies c = true → create (entryFile ToLower create name c).name = true) →
    ∃ f1, processChildren ToLower create cs f 0 name =
      .done f1 ((cs.filter qualifies).map (entryFile ToLower create name)) := by
  induction cs with
  | nil =>
    intro f _ _
    exact ⟨f, by rw [processChildren_nil]; rfl⟩
  | cons c rest ih =>
    intro f hwf hcr
    obtain ⟨f1, h1⟩ := childStep_files ToLower create c f name (hwf c (List.mem_cons_self _ _))
      (hcr c (List.mem_cons_self _ _))
    obtain ⟨f2, h2⟩ := ih f1 (fun x hx => hwf x (List.mem_cons_of_mem _ hx))
      (fun x hx => hcr x (List.mem_cons_of_mem _ hx))
    refine ⟨f2, ?_⟩
    rw [processChildren_cons, h1]
    simp only [andThen, h2]
    by_cases hq : qualifies c = true
    · simp [hq, List.filter_cons]
    · simp [hq, List.filter_cons]

theorem diskContent_absent (files : List File) (nm : Bytes)
    (h : nm ∉ files.map File.name) : diskContent files nm = none := by
  induction files with
  | nil => rfl
  | cons x rest ih =>
    simp only [List.map_cons, List.mem_cons, not_or] at h
    unfold diskContent
    rw [ih h.2]
    simp only []
    rw [if_neg (fun e => h.1 e.symm)]

theorem diskContent_of_nodup (files : List File) (h : (files.map File.name).Nodup) :
    ∀ x ∈ files, diskContent files x.name = some x.content := by
  induction files with
  | nil => intro x hx; simp at hx
  | cons y rest ih =>
    intro x hx
    simp only [List.map_cons, List.nodup_cons] at h
    rcases List.mem_cons.mp hx with hxy | hxr
    · subst hxy
      unfold diskContent
      rw [diskContent_absent rest x.name h.1]
      simp
    · unfold diskContent
      rw [ih h.2 x hxr]

/-- C14, as stated, fails: two qualifying entries with the same title `EC2`
are both given the file `aws_ec2.md`, so one file exists for two entries, and
it holds the content of the second entry only. -/
theorem one_file_per_entry_counterexample :
    processProviderIndex asciiToLower createAll
      (.mk .ElementNode (bs "ul") []
        [.mk .ElementNode (bs "li") [] [.mk .ElementNode (bs "span") [] [],
           .mk .ElementNode (bs "a") [⟨[], bs "href", bs "/docs/a"⟩]
             [.mk .TextNode (bs "EC2") [] []]],
         .mk .ElementNode (bs "li") [] [.mk .ElementNode (bs "span") [] [],
           .mk .ElementNode (bs "a") [⟨[], bs "href", bs "/docs/b"⟩]
             [.mk .TextNode (bs "EC2") [] []]]])
      ⟨2, 0, []⟩ 0 (bs "aws") =
        .done ⟨2, 0, bs " | [EC2](aws_ec2) | [EC2](aws_ec2) |\n"⟩
          [⟨bs "aws_ec2.md", bs "[aws](aws)\n | [EC2](https://www.terraform.io/docs/a)"⟩,
           ⟨bs "aws_ec2.md", bs "[aws](aws)\n | [EC2](https://www.terraform.io/docs/b)"⟩] ∧
    (List.filter qualifies
        [.mk .ElementNode (bs "li") [] [.mk .ElementNode (bs "span") [] [],
           .mk .ElementNode (bs "a") [⟨[], bs "href", bs "/docs/a"⟩]
             [.mk .TextNode (bs "EC2") [] []]],
         .mk .ElementNode (bs "li") [] [.mk .ElementNode (bs "span") [] [],
           .mk .ElementNode (bs "a") [⟨[], bs "href", bs "/docs/b"⟩]
             [.mk .TextNode (bs "EC2") [] []]]]).length = 2 ∧
    distinctFiles
      [⟨bs "aws_ec2.md", bs "[aws](aws)\n | [EC2](https://www.terraform.io/docs/a)"⟩,
       ⟨bs "aws_ec2.md", bs "[aws](aws)\n | [EC2](https://www.terraform.io/docs/b)"⟩] = 1 ∧
    diskContent
      [⟨bs "aws_ec2.md", bs "[aws](aws)\n | [EC2](https://www.terraform.io/docs/a)"⟩,
       ⟨bs "aws_ec2.md", bs "[aws](aws)\n | [EC2](https://www.terraform.io/docs/b)"⟩]
      (bs "aws_ec2.md") = some (bs "[aws](aws)\n | [EC2](https://www.terraform.io/docs/b)") := by
  decide

/-- C14, amended. For every node processed at depth 0 none of whose children
has a shape-matching anchor without a child node, and such that `os.Create`
succeeds on the file name of every child that matches the splitting shape and
is not denylisted: the run returns and creates one file per such child, in the
order of the children, each with the name and the content of that child; when
the file names of these children are pairwise distinct, the number of distinct
files that exist afterwards equals the number of such children and the file
of each child holds the content of that child. -/
theorem one_file_per_entry (ToLower : Bytes → Bytes) (create : Bytes → Bool) (ty : NodeType)
    (data : Bytes) (attr : List Attribute) (cs : List Node) (f : TableAwareWriter) (name : Bytes)
    (hwf : ∀ c ∈ cs, malformed c = false)
    (hcreate : ∀ c ∈ cs, qualifies c = true →
      create (fileName ToLower name (entryTitle c) ++ bs ".md") = true) :
    ∃ f1, processProviderIndex ToLower create (.mk ty data attr cs) f 0 name =
        .done f1 ((cs.filter qualifies).map (entryFile ToLower create name)) ∧
      ((cs.filter qualifies).map (entryFile ToLower create name)).length
        = (cs.filter qualifies).length ∧
      ((((cs.filter qualifies).map (entryFile ToLower create name)).map File.name).Nodup →
        distinctFiles ((cs.filter qualifies).map (entryFile ToLower create name))
          = (cs.filter qualifies).length ∧
        ∀ c ∈ cs.filter qualifies,
          diskContent ((cs.filter qualifies).map (entryFile ToLower create name))
            (entryFile ToLower create name c).name
              = some (entryFile ToLower create name c).content) := by
  obtain ⟨f1, h1⟩ := processChildren_files ToLower create name cs
    (if ty = NodeType.ElementNode ∧ data = bs "a" then writeMDLink (.mk ty data attr cs) f (bs "")
     else f) hwf hcreate
  refine ⟨f1, ?_, by simp, ?_⟩
  · rw [processProviderIndex]
    exact h1
  · intro hnd
    refine ⟨?_, ?_⟩
    · unfold distinctFiles
      rw [List.Nodup.dedup hnd]
      simp
    · intro c hc
      exact diskContent_of_nodup _ hnd _ (List.mem_map_of_mem _ hc)

/-- Witness for C14: the entries `EC2` and `S3` give the two files
`aws_ec2.md` and `aws_s3.md` in a working directory without sub-directories. -/
theorem one_file_per_entry_witness :
    ∃ f1, processProviderIndex asciiToLower freshDir
      (.mk .ElementNode (bs "ul") []
        [.mk .ElementNode (bs "li") [] [.mk .ElementNode (bs "span") [] [],
           .mk .ElementNode (bs "a") [⟨[], bs "href", bs "#"⟩] [.mk .TextNode (bs "EC2") [] []]],
         .mk .ElementNode (bs "li") [] [.mk .ElementNode (bs "span") [] [],
           .mk .ElementNode (bs "a") [⟨[], bs "href", bs "#"⟩] [.mk .TextNode (bs "S3") [] []]]])
      ⟨2, 0, []⟩ 0 (bs "aws") =
        .done f1 ((List.filter qualifies
          [.mk .ElementNode (bs "li") [] [.mk .ElementNode (bs "span") [] [],
             .mk .ElementNode (bs "a") [⟨[], bs "href", bs "#"⟩] [.mk .TextNode (bs "EC2") [] []]],
           .mk .ElementNode (bs "li") [] [.mk .ElementNode (bs "span") [] [],
             .mk .ElementNode (bs "a") [⟨[], bs "href", bs "#"⟩]
               [.mk .TextNode (bs "S3") [] []]]]).map (entryFile asciiToLower freshDir (bs "aws"))) ∧
      distinctFiles ((List.filter qualifies
          [.mk .ElementNode (bs "li") [] [.mk .ElementNode (bs "span") [] [],
             .mk .ElementNode (bs "a") [⟨[], bs "href", bs "#"⟩] [.mk .TextNode (bs "EC2") [] []]],
           .mk .ElementNode (bs "li") [] [.mk .ElementNode (bs "span") [] [],
             .mk .ElementNode (bs "a") [⟨[], bs "href", bs "#"⟩]
               [.mk .TextNode (bs "S3") [] []]]]).map (entryFile asciiToLower freshDir (bs "aws")))
        = (List.filter qualifies
          [.mk .ElementNode (bs "li") [] [.mk .ElementNode (bs "span") [] [],
             .mk .ElementNode (bs "a") [⟨[], bs "href", bs "#"⟩] [.mk .TextNode (bs "EC2") [] []]],
           .mk .ElementNode (bs "li") [] [.mk .ElementNode (bs "span") [] [],
             .mk .ElementNode (bs "a") [⟨[], bs "href", bs "#"⟩]
               [.mk .TextNode (bs "S3") [] []]]]).length := by
  obtain ⟨f1, h1, _, h3⟩ := one_file_per_entry asciiToLower freshDir .ElementNode (bs "ul") []
    [.mk .ElementNode (bs "li") [] [.mk .ElementNode (bs "span") [] [],
       .mk .ElementNode (bs "a") [⟨[], bs "href", bs "#"⟩] [.mk .TextNode (bs "EC2") [] []]],
     .mk .ElementNode (bs "li") [] [.mk .ElementNode (bs "span") [] [],
       .mk .ElementNode (bs "a") [⟨[], bs "href", bs "#"⟩] [.mk .TextNode (bs "S3") [] []]]]
    ⟨2, 0, []⟩ (bs "aws") (by decide) (by decide)
  exact ⟨f1, h1, (h3 (by decide)).1⟩

theorem navClass_eq_any (attrs : List Attribute) :
    navClass attrs =
      attrs.any (fun a => decide (a.Key = bs "class" ∧ a.Val = bs "nav docs-sidenav")) := by
  induction attrs with
  | nil => rfl
  | cons a rest ih =>
    unfold navClass
    by_cases h : a.Key = bs "class" ∧ a.Val = bs "nav docs-sidenav"
    · simp [h]
    · rw [if_neg h, ih]
      simp [h]

theorem isNav_mk (ty : NodeType) (data : Bytes) (attr : List Attribute) (cs : List Node) :
    isNav (.mk ty data attr cs) = true ↔
      (ty = NodeType.ElementNode ∧ data = bs "ul" ∧ navClass attr = true) := by
  rw [navClass_eq_any]
  simp [isNav, Node.Type_, Node.Data, Node.Attr, and_assoc]

theorem searchResult_nil (ToLower : Bytes → Bytes) (create : Bytes → Bool) (w : Walk) :
    searchResult ToLower create [] w = .done true w := by
  simp [searchResult]

theorem searchResult_cons_nav (ToLower : Bytes → Bytes) (create : Bytes → Bool) (n : Node)
    (l : List Node) (w : Walk) (h : isNav n = true) :
    searchResult ToLower create (n :: l) w =
      match processProviderIndex ToLower create n w.p.Output 0 (ToLower w.p.Name) with
      | .abort why out files =>
        .abort why ⟨{ w.p with Output := out }, w.files ++ files, w.visited ++ [n],
          w.calls ++ [(n, 0, ToLower w.p.Name)]⟩
      | .done out files =>
        .done false ⟨{ w.p with Output := out }, w.files ++ files, w.visited ++ [n],
          w.calls ++ [(n, 0, ToLower w.p.Name)]⟩ := by
  simp [searchResult, List.find?_cons, h, List.takeWhile_cons]

theorem searchResult_cons_not (ToLower : Bytes → Bytes) (create : Bytes → Bool) (n : Node)
    (l : List Node) (w : Walk) (h : isNav n = false) :
    searchResult ToLower create (n :: l) w =
      searchResult ToLower create l { w with visited := w.visited ++ [n] } := by
  simp only [searchResult, List.find?_cons, h, List.takeWhile_cons, Bool.not_false, if_true]
  cases l.find? isNav with
  | none => simp
  | some m =>
    dsimp only
    cases processProviderIndex ToLower create m w.p.Output 0 (ToLower w.p.Name) with
    | abort why out files => simp
    | done out files => simp

theorem searchResult_append (ToLower : Bytes → Bytes) (create : Bytes → Bool)
    (l1 l2 : List Node) :
    ∀ (w : Walk), searchResult ToLower create (l1 ++ l2) w =
      match searchResult ToLower create l1 w with
      | .abort why w1 => .abort why w1
      | .done false w1 => .done false w1
      | .done true w1 => searchResult ToLower create l2 w1 := by
  induction l1 with
  | nil =>
    intro w
    rw [List.nil_append, searchResult_nil]
  | cons n l ih =>
    intro w
    rw [List.cons_append]
    by_cases h : isNav n = true
    · rw [searchResult_cons_nav ToLower create n (l ++ l2) w h,
        searchResult_cons_nav ToLower create n l w h]
      cases processProviderIndex ToLower create n w.p.Output 0 (ToLower w.p.Name) with
      | abort why out files => rfl
      | done out files => rfl
    · have h' : isNav n = false := by simpa using h
      rw [searchResult_cons_not ToLower create n (l ++ l2) w h',
        searchResult_cons_not ToLower create n l w h']
      exact ih _

mutual

theorem WalkNode_eq_search (ToLower : Bytes → Bytes) (create : Bytes → Bool) :
    ∀ (n : Node) (w : Walk),
      WalkNode ToLower create n w = searchResult ToLower create (preorder n) w
  | .mk ty data attr cs, w => by
    rw [WalkNode, preorder]
    by_cases h : ty = NodeType.ElementNode ∧ data = bs "ul" ∧ navClass attr = true
    · rw [if_pos h, searchResult_cons_nav ToLower create _ _ w ((isNav_mk ty data attr cs).2 h)]
    · have h' : isNav (.mk ty data attr cs) = false := by
        cases hn : isNav (.mk ty data attr cs) with
        | false => rfl
        | true => exact absurd ((isNav_mk ty data attr cs).1 hn) h
      rw [if_neg h, searchResult_cons_not ToLower create _ _ w h']
      exact walkChildren_eq_search ToLower create cs _

theorem walkChildren_eq_search (ToLower : Bytes → Bytes) (create : Bytes → Bool) :
    ∀ (cs : List Node) (w : Walk),
      walkChildren ToLower create cs w = searchResult ToLower create (preorderList cs) w
  | [], w => by
    rw [walkChildren, preorderList, searchResult_nil]
  | c :: rest, w => by
    rw [walkChildren, preorderList, searchResult_append, WalkNode_eq_search ToLower create c w]
    cases searchResult ToLower create (preorder c) w with
    | abort why w1 => rfl
    | done b w1 =>
      cases b with
      | false => rfl
      | true => exact walkChildren_eq_search ToLower create rest w1

end

theorem tableHeader_two (k : Int) (out : Bytes) :
    (⟨2, k, out⟩ : TableAwareWriter).tableHeader = bs "| | |\n| --- | --- |\n" := by
  unfold TableAwareWriter.tableHeader
  show (headerRows (2 : Int).toNat ([], [])).1 ++ bs "|\n" ++
      ((headerRows (2 : Int).toNat ([], [])).2 ++ bs "|\n") = bs "| | |\n| --- | --- |\n"
  decide

/-- C15. For every document tree that contains no element with tag `ul`
carrying an attribute `class = "nav docs-sidenav"`, `WalkNode` visits the whole
tree, calls `processProviderIndex` zero times (the trace of calls and the
provider are unchanged, no file is created) and returns `true`; so `Process`
(directory and file creation, fetch and parse succeeding) leaves exactly one
file, the main page named by the lower-cased provider name, containing
`"# " ++ Name ++ "\n\n" ++ "[Home](Home)\n\n" ++ "| | |\n| --- | --- |\n"`. -/
theorem no_container_main_page (ToLower : Bytes → Bytes) (create : Bytes → Bool) (Name : Bytes)
    (root : Node) (w : Walk) (h : ∀ m ∈ preorder root, isNav m = false) :
    WalkNode ToLower create root w =
      .done true { w with visited := w.visited ++ preorder root } ∧
    Process ToLower create Name root =
      some [⟨ToLower Name ++ bs ".md",
        bs "# " ++ Name ++ bs "\n\n" ++ bs "[Home](Home)\n\n" ++ bs "| | |\n| --- | --- |\n"⟩] := by
  have hfind : (preorder root).find? isNav = none := by
    rw [List.find?_eq_none]
    intro x hx
    simp [h x hx]
  have hwalk : ∀ w0 : Walk, WalkNode ToLower create root w0 =
      .done true { w0 with visited := w0.visited ++ preorder root } := by
    intro w0
    rw [WalkNode_eq_search]
    simp only [searchResult, hfind]
  refine ⟨hwalk w, ?_⟩
  unfold Process
  simp only [hwalk, TableAwareWriter.WriteHeader, TableAwareWriter.WriteTableHeader,
    tableHeader_two, List.nil_append, List.append_assoc]

/-- Witness for C15: a page whose only list is a `ul` of another class. -/
theorem no_container_main_page_witness :
    Process asciiToLower freshDir (bs "AWS")
      (.mk .DocumentNode (bs "") [] [.mk .ElementNode (bs "html") []
        [.mk .ElementNode (bs "body") []
          [.mk .ElementNode (bs "ul") [⟨[], bs "class", bs "nav"⟩]
            [.mk .ElementNode (bs "li") [] [.mk .TextNode (bs "x") [] []]]]]]) =
      some [⟨asciiToLower (bs "AWS") ++ bs ".md",
        bs "# " ++ bs "AWS" ++ bs "\n\n" ++ bs "[Home](Home)\n\n" ++ bs "| | |\n| --- | --- |\n"⟩] :=
  (no_container_main_page asciiToLower freshDir (bs "AWS")
      (.mk .DocumentNode (bs "") [] [.mk .ElementNode (bs "html") []
        [.mk .ElementNode (bs "body") []
          [.mk .ElementNode (bs "ul") [⟨[], bs "class", bs "nav"⟩]
            [.mk .ElementNode (bs "li") [] [.mk .TextNode (bs "x") [] []]]]]])
      ⟨⟨bs "AWS", ⟨2, 0, []⟩⟩, [], [], []⟩ (by decide)).2

/-- C16. `WalkNode` is a short-circuiting pre-order search. Without a
navigation container in the tree it visits every node, calls
`processProviderIndex` not at all and returns `true`. With one, it calls
`processProviderIndex` exactly once, on the first container in pre-order, at
depth 0 with the lower-cased provider name; the nodes visited are those before
that container in pre-order and the container itself, and the walk returns
`false` as soon as that call returns (if the process ends inside that call,
the traces are the same). Whenever `WalkNode` returns, at most one call has
been made and the result is `false` if and only if the tree contains a
container. -/
theorem WalkNode_short_circuit (ToLower : Bytes → Bytes) (create : Bytes → Bool) (n : Node)
    (w : Walk) :
    ((preorder n).find? isNav = none →
      WalkNode ToLower create n w = .done true { w with visited := w.visited ++ preorder n }) ∧
    (∀ m, (preorder n).find? isNav = some m →
      WalkNode ToLower create n w =
        match processProviderIndex ToLower create m w.p.Output 0 (ToLower w.p.Name) with
        | .abort why out files =>
          .abort why ⟨{ w.p with Output := out }, w.files ++ files,
            w.visited ++ ((preorder n).takeWhile (fun x => !isNav x) ++ [m]),
            w.calls ++ [(m, 0, ToLower w.p.Name)]⟩
        | .done out files =>
          .done false ⟨{ w.p with Output := out }, w.files ++ files,
            w.visited ++ ((preorder n).takeWhile (fun x => !isNav x) ++ [m]),
            w.calls ++ [(m, 0, ToLower w.p.Name)]⟩) ∧
    (∀ b w1, WalkNode ToLower create n w = .done b w1 →
      (b = false ↔ ∃ m ∈ preorder n, isNav m = true) ∧
      w1.calls.length ≤ w.calls.length + 1) ∧
    (∀ why w1, WalkNode ToLower create n w = .abort why w1 →
      (∃ m ∈ preorder n, isNav m = true) ∧ w1.calls.length = w.calls.length + 1) := by
  refine ⟨?_, ?_, ?_, ?_⟩
  · intro h
    rw [WalkNode_eq_search]
    simp only [searchResult, h]
  · intro m h
    rw [WalkNode_eq_search]
    simp only [searchResult, h]
  · intro b w1 hres
    rw [WalkNode_eq_search] at hres
    unfold searchResult at hres
    cases hf : (preorder n).find? isNav with
    | none =>
      rw [hf] at hres
      simp only [WalkOutcome.done.injEq] at hres
      obtain ⟨hb, hw⟩ := hres
      subst hb
      subst hw
      rw [List.find?_eq_none] at hf
      refine ⟨?_, by simp⟩
      constructor
      · intro hc; cases hc
      · rintro ⟨m, hm, hnav⟩
        exact absurd hnav (hf m hm)
    | some m =>
      rw [hf] at hres
      dsimp only at hres
      cases hp : processProviderIndex ToLower create m w.p.Output 0 (ToLower w.p.Name) with
      | abort why out files => rw [hp] at hres; cases hres
      | done out files =>
        rw [hp] at hres
        simp only [WalkOutcome.done.injEq] at hres
        obtain ⟨hb, hw⟩ := hres
        subst hb
        subst hw
        refine ⟨?_, by simp⟩
        constructor
        · intro _
          exact ⟨m, List.mem_of_find?_eq_some hf, List.find?_some hf⟩
        · intro _; rfl
  · intro why w1 hres
    rw [WalkNode_eq_search] at hres
    unfold searchResult at hres
    cases hf : (preorder n).find? isNav with
    | none =>
      rw [hf] at hres
      cases hres
    | some m =>
      rw [hf] at hres
      dsimp only at hres
      cases hp : processProviderIndex ToLower create m w.p.Output 0 (ToLower w.p.Name) with
      | done out files => rw [hp] at hres; cases hres
      | abort why2 out files =>
        rw [hp] at hres
        simp only [WalkOutcome.abort.injEq] at hres
        obtain ⟨_, hw⟩ := hres
        subst hw
        exact ⟨⟨m, List.mem_of_find?_eq_some hf, List.find?_some hf⟩, by simp⟩

/-- Witness for C16: in a page with two navigation lists the first one in
pre-order is the one handed to `processProviderIndex`. -/
theorem WalkNode_short_circuit_witness :
    WalkNode asciiToLower createAll
      (.mk .ElementNode (bs "body") []
        [.mk .ElementNode (bs "div") [] [.mk .TextNode (bs "x") [] []],
         .mk .ElementNode (bs "ul") [⟨[], bs "class", bs "nav docs-sidenav"⟩]
           [.mk .ElementNode (bs "li") [] [.mk .TextNode (bs "first") [] []]],
         .mk .ElementNode (bs "ul") [⟨[], bs "class", bs "nav docs-sidenav"⟩]
           [.mk .ElementNode (bs "li") [] [.mk .TextNode (bs "second") [] []]]])
      ⟨⟨bs "AWS", ⟨2, 0, []⟩⟩, [], [], []⟩ =
    match processProviderIndex asciiToLower createAll
        (.mk .ElementNode (bs "ul") [⟨[], bs "class", bs "nav docs-sidenav"⟩]
           [.mk .ElementNode (bs "li") [] [.mk .TextNode (bs "first") [] []]])
        ⟨2, 0, []⟩ 0 (asciiToLower (bs "AWS")) with
    | .abort why out files =>
      .abort why ⟨{ (⟨bs "AWS", ⟨2, 0, []⟩⟩ : Provider) with Output := out }, [] ++ files,
        [] ++ ((preorder (.mk .ElementNode (bs "body") []
          [.mk .ElementNode (bs "div") [] [.mk .TextNode (bs "x") [] []],
           .mk .ElementNode (bs "ul") [⟨[], bs "class", bs "nav docs-sidenav"⟩]
             [.mk .ElementNode (bs "li") [] [.mk .TextNode (bs "first") [] []]],
           .mk .ElementNode (bs "ul") [⟨[], bs "class", bs "nav docs-sidenav"⟩]
             [.mk .ElementNode (bs "li") [] [.mk .TextNode (bs "second") [] []]]])).takeWhile
            (fun x => !isNav x) ++
          [.mk .ElementNode (bs "ul") [⟨[], bs "class", bs "nav docs-sidenav"⟩]
             [.mk .ElementNode (bs "li") [] [.mk .TextNode (bs "first") [] []]]]),
        [] ++ [(.mk .ElementNode (bs "ul") [⟨[], bs "class", bs "nav docs-sidenav"⟩]
             [.mk .ElementNode (bs "li") [] [.mk .TextNode (bs "first") [] []]], 0,
             asciiToLower (bs "AWS"))]⟩
    | .done out files =>
      .done false ⟨{ (⟨bs "AWS", ⟨2, 0, []⟩⟩ : Provider) with Output := out }, [] ++ files,
        [] ++ ((preorder (.mk .ElementNode (bs "body") []
          [.mk .ElementNode (bs "div") [] [.mk .TextNode (bs "x") [] []],
           .mk .ElementNode (bs "ul") [⟨[], bs "class", bs "nav docs-sidenav"⟩]
             [.mk .ElementNode (bs "li") [] [.mk .TextNode (bs "first") [] []]],
           .mk .ElementNode (bs "ul") [⟨[], bs "class", bs "nav docs-sidenav"⟩]
             [.mk .ElementNode (bs "li") [] [.mk .TextNode (bs "second") [] []]]])).takeWhile
            (fun x => !isNav x) ++
          [.mk .ElementNode (bs "ul") [⟨[], bs "class", bs "nav docs-sidenav"⟩]
             [.mk .ElementNode (bs "li") [] [.mk .TextNode (bs "first") [] []]]]),
        [] ++ [(.mk .ElementNode (bs "ul") [⟨[], bs "class", bs "nav docs-sidenav"⟩]
             [.mk .ElementNode (bs "li") [] [.mk .TextNode (bs "first") [] []]], 0,
             asciiToLower (bs "AWS"))]⟩ :=
  (WalkNode_short_circuit asciiToLower createAll
      (.mk .ElementNode (bs "body") []
        [.mk .ElementNode (bs "div") [] [.mk .TextNode (bs "x") [] []],
         .mk .ElementNode (bs "ul") [⟨[], bs "class", bs "nav docs-sidenav"⟩]
           [.mk .ElementNode (bs "li") [] [.mk .TextNode (bs "first") [] []]],
         .mk .ElementNode (bs "ul") [⟨[], bs "class", bs "nav docs-sidenav"⟩]
           [.mk .ElementNode (bs "li") [] [.mk .TextNode (bs "second") [] []]]])
      ⟨⟨bs "AWS", ⟨2, 0, []⟩⟩, [], [], []⟩).2.1
    (.mk .ElementNode (bs "ul") [⟨[], bs "class", bs "nav docs-sidenav"⟩]
      [.mk .ElementNode (bs "li") [] [.mk .TextNode (bs "first") [] []]]) rfl

end CreateWiki
